import Mathlib

/-!
Verification of `migrate-to-slf4j.py`: a regex-driven, single-pass source
transformation that rewrites `System.out`/`System.err` console calls to SLF4J
logging calls, inserting imports and a per-class logger declaration.

File contents are modelled as `List Char`.  The Python `re` constructs the
script uses (literal runs, greedy `+`/`*` over single character classes, one
optional group, capture groups) are embedded as a small backtracking matcher
with Python's leftmost, greedy-first semantics.  All patterns in the script
begin with a nonempty literal, so empty matches never occur; scanning
functions (`reSub`, `reFindEnds`) treat a hypothetical empty match as a
non-match and advance one character, which coincides with Python on every
pattern used here.
-/

set_option maxRecDepth 65536

/-- Content of a file, as an ordered sequence of characters. -/
abbrev Str := List Char

/-- Capture environment: group index paired with the captured text. -/
abbrev Caps := List (Nat × Str)

/-- Boolean prefix test: `strPre p s` holds when `p` is a prefix of `s`.  The
equations case on the pattern first, so the test evaluates even when only a
tail of `s` is an unknown variable. -/
def strPre : Str → Str → Bool
  | [], _ => true
  | _ :: _, [] => false
  | a :: as, b :: bs => a == b && strPre as bs

/-- Correctness of the Boolean prefix test. -/
theorem strPre_iff {l₁ l₂ : Str} : strPre l₁ l₂ = true ↔ l₁ <+: l₂ := by
  induction l₁ generalizing l₂ with
  | nil => simp [strPre]
  | cons a as ih =>
    cases l₂ with
    | nil =>
      simp [strPre]
    | cons b bs =>
      rw [strPre, List.cons_prefix_cons, Bool.and_eq_true, beq_iff_eq, ih]

/-- Python `\s` on ASCII input: space, tab, newline, CR, vertical tab, form feed. -/
def isWS (c : Char) : Bool :=
  c == ' ' || c == '\t' || c == '\n' || c == '\r' || c == '\x0b' || c == '\x0c'

/-- Python `\w` on ASCII input: letters, digits, underscore. -/
def isWordChar (c : Char) : Bool :=
  c.isAlpha || c.isDigit || c == '_'

/-- Character class `[^"]`. -/
def notQuote (c : Char) : Bool := c != '"'

/-- Character class `[^)]`. -/
def notRParen (c : Char) : Bool := c != ')'

/-- Character class `[\w.]`. -/
def wordDot (c : Char) : Bool := isWordChar c || c == '.'

/-- Regular expressions as used by the script: literals, greedy star/plus over
a character class, concatenation, greedy option, and capturing plus (every
capturing group in the script is `(C+)` for a character class `C`; groups
whose captures the script never reads are transcribed as plain sequences). -/
inductive RE where
  | lit  (cs : Str)
  | star (p : Char → Bool)
  | plus (p : Char → Bool)
  | seq  (a b : RE)
  | opt  (r : RE)
  | grpPlus (i : Nat) (p : Char → Bool)

/-- Concatenation of a list of regexes. -/
def RE.cat : List RE → RE
  | [] => .lit []
  | [r] => r
  | r :: rs => .seq r (RE.cat rs)

/-- Greedy Kleene star over a character class, in continuation style: consume
as many `p`-characters as possible, backtracking one at a time when the
continuation fails. -/
def greedyStar (p : Char → Bool) (k : Str → Caps → Option (Caps × Str)) :
    Str → Caps → Option (Caps × Str)
  | [], caps => k [] caps
  | c :: t, caps =>
    if p c then
      match greedyStar p k t caps with
      | some res => some res
      | none => k (c :: t) caps
    else k (c :: t) caps

/-- Greedy star over a character class inside capture group `i`: like
`greedyStar`, but the characters consumed so far (`acc`, oldest first) are
recorded as the group's text at the point the continuation is run. -/
def greedyCapStar (p : Char → Bool) (i : Nat) (k : Str → Caps → Option (Caps × Str)) :
    Str → Str → Caps → Option (Caps × Str)
  | acc, [], caps => k [] ((i, acc) :: caps)
  | acc, c :: t, caps =>
    if p c then
      match greedyCapStar p i k (acc ++ [c]) t caps with
      | some res => some res
      | none => k (c :: t) ((i, acc) :: caps)
    else k (c :: t) ((i, acc) :: caps)

/-- Backtracking matcher in continuation style; `k` receives the remaining
input and the captures accumulated so far.  Greedy-first order matches
Python `re`. -/
def mmatch : RE → Str → Caps → (Str → Caps → Option (Caps × Str)) → Option (Caps × Str)
  | .lit cs, s, caps, k =>
    if strPre cs s then k (s.drop cs.length) caps else none
  | .star p, s, caps, k => greedyStar p k s caps
  | .plus p, s, caps, k =>
    match s with
    | [] => none
    | c :: t => if p c then greedyStar p k t caps else none
  | .seq a b, s, caps, k => mmatch a s caps (fun s1 caps1 => mmatch b s1 caps1 k)
  | .opt r, s, caps, k =>
    match mmatch r s caps k with
    | some res => some res
    | none => k s caps
  | .grpPlus i p, s, caps, k =>
    match s with
    | [] => none
    | c :: t => if p c then greedyCapStar p i k [c] t caps else none

/-- Try to match `r` at the start of `s`; on success return the captures and
the number of characters consumed. -/
def tryMatchAt (r : RE) (s : Str) : Option (Caps × Nat) :=
  match mmatch r s [] (fun rest caps => some (caps, rest)) with
  | some (caps, rest) => some (caps, s.length - rest.length)
  | none => none

/-- Result of `re.search`: absolute start and end offsets and the captures. -/
structure SearchRes where
  ms : Nat
  me : Nat
  caps : Caps
deriving DecidableEq, Repr

/-- Scan for the leftmost match of `r`, `pos` being the absolute offset of the
head of `s`. -/
def searchFrom (r : RE) (pos : Nat) : Str → Option SearchRes
  | [] =>
    match tryMatchAt r [] with
    | some (caps, len) => some ⟨pos, pos + len, caps⟩
    | none => none
  | c :: t =>
    match tryMatchAt r (c :: t) with
    | some (caps, len) => some ⟨pos, pos + len, caps⟩
    | none => searchFrom r (pos + 1) t

/-- Python `re.search`. -/
def reSearch (r : RE) (s : Str) : Option SearchRes := searchFrom r 0 s

/-- Fuel-indexed scanner behind `reFindEnds`; the fuel (initially the input
length, enough since every step consumes at least one character) makes the
recursion structural. -/
def reFindEndsFuel (r : RE) : Nat → Nat → Str → List Nat
  | _, _, [] => []
  | 0, _, _ :: _ => []
  | fuel + 1, pos, c :: t =>
    match tryMatchAt r (c :: t) with
    | some (_, len) =>
      if 0 < len then (pos + len) :: reFindEndsFuel r fuel (pos + len) ((c :: t).drop len)
      else reFindEndsFuel r fuel (pos + 1) t
    | none => reFindEndsFuel r fuel (pos + 1) t

/-- End offsets of the non-overlapping matches found by Python `re.finditer`,
scanning left to right.  (All patterns used here consume at least one
character on a match.) -/
def reFindEnds (r : RE) (pos : Nat) (s : Str) : List Nat :=
  reFindEndsFuel r s.length pos s

/-- Fuel-indexed rewriter behind `reSub`; the fuel (initially the input
length) makes the recursion structural. -/
def reSubFuel (r : RE) (repl : Caps → Str) : Nat → Str → Str
  | _, [] => []
  | 0, _ :: _ => []
  | fuel + 1, c :: t =>
    match tryMatchAt r (c :: t) with
    | some (caps, len) =>
      if 0 < len then repl caps ++ reSubFuel r repl fuel ((c :: t).drop len)
      else c :: reSubFuel r repl fuel t
    | none => c :: reSubFuel r repl fuel t

/-- Python `re.sub`: replace every non-overlapping match of `r`, scanning left
to right, the replacement text being a function of the captures. -/
def reSub (r : RE) (repl : Caps → Str) (s : Str) : Str :=
  reSubFuel r repl s.length s

/-- Python's substring test `needle in hay`. -/
def strIn (needle hay : Str) : Bool :=
  strPre needle hay ||
    (match hay with
     | [] => false
     | _ :: t => strIn needle t)

/-- Text of a capture group (Python `\1`, `\2`). -/
def capGet (caps : Caps) (i : Nat) : Str :=
  match caps.find? (fun pr => pr.1 == i) with
  | some pr => pr.2
  | none => []

/-! ### The six call-rewrite patterns and their replacement templates

Transcribed from `replace_system_out` / `replace_system_err`.  Literal braces
are written with `\x7b`/`\x7d` escapes. -/

/-- Regex `System\.out\.println\("([^"]+)"\);`. -/
def out1RE : RE := .cat [.lit "System.out.println(\"".data, .grpPlus 1 notQuote, .lit "\");".data]

/-- Replacement `log.info("\1");`. -/
def out1Repl (caps : Caps) : Str := "log.info(\"".data ++ capGet caps 1 ++ "\");".data

/-- Regex `System\.out\.println\("([^"]+):\s*"\s*\+\s*([^)]+)\);`. -/
def out2RE : RE := .cat [.lit "System.out.println(\"".data, .grpPlus 1 notQuote, .lit ":".data,
  .star isWS, .lit "\"".data, .star isWS, .lit "+".data, .star isWS,
  .grpPlus 2 notRParen, .lit ");".data]

/-- Replacement `log.info("\1: {}", \2);`. -/
def out2Repl (caps : Caps) : Str :=
  "log.info(\"".data ++ capGet caps 1 ++ ": \x7b\x7d\", ".data ++ capGet caps 2 ++ ");".data

/-- Regex `System\.out\.println\(([^"]+)\);`. -/
def out3RE : RE := .cat [.lit "System.out.println(".data, .grpPlus 1 notQuote, .lit ");".data]

/-- Replacement `log.info("{}",\1);`. -/
def out3Repl (caps : Caps) : Str := "log.info(\"\x7b\x7d\",".data ++ capGet caps 1 ++ ");".data

/-- Regex `System\.err\.println\("([^"]+)"\);`. -/
def err1RE : RE := .cat [.lit "System.err.println(\"".data, .grpPlus 1 notQuote, .lit "\");".data]

/-- Replacement `log.error("\1");`. -/
def err1Repl (caps : Caps) : Str := "log.error(\"".data ++ capGet caps 1 ++ "\");".data

/-- Regex `System\.err\.println\("([^"]+):\s*"\s*\+\s*([^)]+)\);`. -/
def err2RE : RE := .cat [.lit "System.err.println(\"".data, .grpPlus 1 notQuote, .lit ":".data,
  .star isWS, .lit "\"".data, .star isWS, .lit "+".data, .star isWS,
  .grpPlus 2 notRParen, .lit ");".data]

/-- Replacement `log.error("\1: {}", \2);`. -/
def err2Repl (caps : Caps) : Str :=
  "log.error(\"".data ++ capGet caps 1 ++ ": \x7b\x7d\", ".data ++ capGet caps 2 ++ ");".data

/-- Regex `System\.err\.println\(([^"]+)\);`. -/
def err3RE : RE := .cat [.lit "System.err.println(".data, .grpPlus 1 notQuote, .lit ");".data]

/-- Replacement `log.error("{}",\1);`. -/
def err3Repl (caps : Caps) : Str := "log.error(\"\x7b\x7d\",".data ++ capGet caps 1 ++ ");".data

/-! ### Auxiliary patterns of the existence checks and insertion steps -/

/-- Regex `(import\s+[\w.]+;)` of `add_slf4j_import` (the group's capture is
never read — only the match end offsets matter — so it is transcribed as the
bare sequence). -/
def importRE : RE := .cat [.lit "import".data, .plus isWS, .plus wordDot, .lit ";".data]

/-- Regex `private\s+static\s+final\s+Logger\s+log\s*=` of `has_logger_declaration`. -/
def loggerDeclRE : RE := .cat [.lit "private".data, .plus isWS, .lit "static".data, .plus isWS,
  .lit "final".data, .plus isWS, .lit "Logger".data, .plus isWS, .lit "log".data,
  .star isWS, .lit "=".data]

/-- Regex `public\s+class\s+(\w+)` of `get_class_name`. -/
def classNameRE : RE := .cat [.lit "public".data, .plus isWS, .lit "class".data, .plus isWS,
  .grpPlus 1 isWordChar]

/-- Regex `(@Configuration\s+)?public\s+class\s+{class_name}\s*{` of
`add_logger_declaration` (the class name is spliced in literally; it consists
of word characters, so no regex metacharacters arise). -/
def classHeadRE (class_name : Str) : RE :=
  .cat [.opt (.seq (.lit "@Configuration".data) (.plus isWS)),
    .lit "public".data, .plus isWS, .lit "class".data, .plus isWS,
    .lit class_name, .star isWS, .lit "\x7b".data]

/-! ### The script's functions (`migrate-to-slf4j.py`) -/

/-- Python `has_slf4j_import`: `'import org.slf4j.Logger' in content`. -/
def has_slf4j_import (content : Str) : Bool :=
  strIn "import org.slf4j.Logger".data content

/-- Python `has_logger_declaration`: `re.search(...) is not None`. -/
def has_logger_declaration (content : Str) : Bool :=
  (reSearch loggerDeclRE content).isSome

/-- Python `get_class_name`: first match's group 1, else `None`. -/
def get_class_name (content : Str) : Option Str :=
  match reSearch classNameRE content with
  | some res => some (capGet res.caps 1)
  | none => none

/-- The fixed text inserted by `add_slf4j_import`. -/
def slf4jImportsText : Str :=
  "\nimport org.slf4j.Logger;\nimport org.slf4j.LoggerFactory;".data

/-- Python `add_slf4j_import`: insert the two import lines after the end of the
last `import` match, if any. -/
def add_slf4j_import (content : Str) : Str :=
  match (reFindEnds importRE 0 content).getLast? with
  | some insert_pos => content.take insert_pos ++ slf4jImportsText ++ content.drop insert_pos
  | none => content

/-- Text of the logger field declaration inserted for class `class_name`. -/
def loggerDeclText (class_name : Str) : Str :=
  "\n\n    private static final Logger log = LoggerFactory.getLogger(".data
    ++ class_name ++ ".class);".data

/-- Python `add_logger_declaration`: insert the declaration right after the
end of the class-opening-brace match, if found. -/
def add_logger_declaration (content : Str) (class_name : Str) : Str :=
  match reSearch (classHeadRE class_name) content with
  | some res => content.take res.me ++ loggerDeclText class_name ++ content.drop res.me
  | none => content

/-- Python `replace_system_out`: the three substitutions, in order. -/
def replace_system_out (content : Str) : Str :=
  reSub out3RE out3Repl (reSub out2RE out2Repl (reSub out1RE out1Repl content))

/-- Python `replace_system_err`: the three substitutions, in order. -/
def replace_system_err (content : Str) : Str :=
  reSub err3RE err3Repl (reSub err2RE err2Repl (reSub err1RE err1Repl content))

/-- Substring check `'System.out' in content`. -/
def hasSystemOut (content : Str) : Bool := strIn "System.out".data content

/-- Substring check `'System.err' in content`. -/
def hasSystemErr (content : Str) : Bool := strIn "System.err".data content

/-- The content transformation performed by `process_file` on a relevant file
(lines 117-132 of the script): conditional import insertion, conditional
logger-declaration insertion (class name extracted after the import step),
then the six call rewrites. -/
def transform (content : Str) : Str :=
  let c1 := if has_slf4j_import content then content else add_slf4j_import content
  let c2 := match get_class_name c1 with
            | some class_name =>
              if has_logger_declaration c1 then c1 else add_logger_declaration c1 class_name
            | none => c1
  replace_system_err (replace_system_out c2)

/-- Progress message printed by `process_file` for a file. -/
inductive Msg where
  | skipped
  | updated
  | wouldUpdate
  | noChanges
deriving DecidableEq, Repr

/-- Observable outcome of `process_file` on one file: the file's on-disk
content after the call, the in-memory content the run computed, the returned
changed flag, whether a write happened, and the final message. -/
structure ProcResult where
  fileContent : Str
  computed : Str
  changed : Bool
  wrote : Bool
  msg : Msg
deriving DecidableEq, Repr

/-- Python `process_file` (the file's content stands in for the file): skip
files without either marker; otherwise transform, then write only when the
content changed and `dry_run` is off. -/
def process_file (dry_run : Bool) (content : Str) : ProcResult :=
  if !hasSystemOut content && !hasSystemErr content then
    ⟨content, content, false, false, .skipped⟩
  else
    let newContent := transform content
    if newContent ≠ content then
      if dry_run then ⟨content, newContent, true, false, .wouldUpdate⟩
      else ⟨newContent, newContent, true, true, .updated⟩
    else ⟨content, newContent, false, false, .noChanges⟩

/-! ### Discovery (`main`, lines 147-174) -/

/-- A directory tree: the directory's name, its plain files, its
subdirectories. -/
inductive DirTree where
  | node (dirname : Str) (files : List Str) (subdirs : List DirTree)

/-- Name of the directory. -/
def DirTree.dname : DirTree → Str
  | .node n _ _ => n

mutual
/-- Python `os.walk`, top-down: the directory at `path` with its files, then
the entries of every subdirectory, whose path is `os.path.join(path, name)`.
Note `os.walk` descends into every directory; `main` only skips collecting
from excluded roots. -/
def walk (path : Str) : DirTree → List (Str × List Str)
  | .node _ files subs => (path, files) :: walkList path subs

/-- Entries of the subtrees of the subdirectories `ds` of the directory at
`path`, in order. -/
def walkList (path : Str) : List DirTree → List (Str × List Str)
  | [] => []
  | d :: ds => walk (path ++ '/' :: d.dname) d ++ walkList path ds
end

/-- Exclusion test of `main`'s loop: `'target' in root or '.git' in root`. -/
def skipDir (root : Str) : Bool :=
  strIn "target".data root || strIn ".git".data root

/-- Body of `main`'s collection loop over walk entries: skip excluded roots,
else keep `os.path.join(root, f)` for every file `f` ending in `.java`. -/
def javaFilesOf (entries : List (Str × List Str)) : List Str :=
  entries.flatMap (fun pr =>
    if skipDir pr.1 then []
    else (pr.2.filter (fun f => ".java".data.isSuffixOf f)).map (fun f => pr.1 ++ '/' :: f))

/-! ### Basic lemmas -/

/-- Correctness of the Boolean substring test. -/
theorem strIn_iff {needle hay : Str} : strIn needle hay = true ↔ needle <:+: hay := by
  induction hay with
  | nil =>
    simp [strIn, strPre_iff, List.prefix_nil, List.infix_nil]
  | cons c t ih =>
    rw [strIn]
    simp [strPre_iff, ih, List.infix_cons_iff]

/-- A substring of `hay` is a substring of `hay ++ more`. -/
theorem strIn_append_right {needle hay : Str} (more : Str) (h : strIn needle hay = true) :
    strIn needle (hay ++ more) = true := by
  rw [strIn_iff] at h ⊢
  exact h.trans (List.prefix_append hay more).isInfix

/-- Markedness of a root path propagates to every extension of the path. -/
theorem skipDir_append (p more : Str) (h : skipDir p = true) : skipDir (p ++ more) = true := by
  rw [skipDir, Bool.or_eq_true] at h ⊢
  rcases h with h | h
  · exact Or.inl (strIn_append_right more h)
  · exact Or.inr (strIn_append_right more h)

/-- Collection distributes over concatenation of entry lists. -/
theorem javaFilesOf_append (e₁ e₂ : List (Str × List Str)) :
    javaFilesOf (e₁ ++ e₂) = javaFilesOf e₁ ++ javaFilesOf e₂ := by
  simp [javaFilesOf]

mutual
/-- Nothing under a directory whose path is marked is ever collected. -/
theorem javaFilesOf_walk_eq_nil (p : Str) (t : DirTree) (h : skipDir p = true) :
    javaFilesOf (walk p t) = [] := by
  match t with
  | .node n files subs =>
    rw [walk, show ((p, files) :: walkList p subs) = [(p, files)] ++ walkList p subs from rfl,
      javaFilesOf_append, javaFilesOf_walkList_eq_nil p subs h]
    simp [javaFilesOf, h]

/-- Nothing under the subdirectories of a marked path is ever collected. -/
theorem javaFilesOf_walkList_eq_nil (p : Str) (ds : List DirTree) (h : skipDir p = true) :
    javaFilesOf (walkList p ds) = [] := by
  match ds with
  | [] => simp [walkList, javaFilesOf]
  | d :: ds' =>
    rw [walkList, javaFilesOf_append,
      javaFilesOf_walk_eq_nil (p ++ '/' :: d.dname) d (skipDir_append p ('/' :: d.dname) h),
      javaFilesOf_walkList_eq_nil p ds' h]
    rfl
end

mutual
/-- Every entry root produced by the walk extends the walked path. -/
theorem walk_root_extends (p : Str) (t : DirTree) (root : Str) (fs : List Str)
    (h : (root, fs) ∈ walk p t) : p <+: root := by
  match t with
  | .node n files subs =>
    rw [walk, List.mem_cons] at h
    rcases h with h | h
    · cases h; exact List.prefix_refl p
    · exact walkList_root_extends p subs root fs h

/-- Every entry root produced under subdirectories extends the walked path. -/
theorem walkList_root_extends (p : Str) (ds : List DirTree) (root : Str) (fs : List Str)
    (h : (root, fs) ∈ walkList p ds) : p <+: root := by
  match ds with
  | [] => simp [walkList] at h
  | d :: ds' =>
    rw [walkList, List.mem_append] at h
    rcases h with h | h
    · exact (List.prefix_append p ('/' :: d.dname)).trans
        (walk_root_extends (p ++ '/' :: d.dname) d root fs h)
    · exact walkList_root_extends p ds' root fs h
end

/-- The last entry of a list is a member. -/
theorem mem_of_getLast?_eq {α : Type} {l : List α} {e : α} (h : l.getLast? = some e) : e ∈ l := by
  induction l with
  | nil => simp at h
  | cons a t ih =>
    cases t with
    | nil => simp [List.getLast?] at h; simp [h]
    | cons b u =>
      rw [List.getLast?_cons_cons] at h
      exact List.mem_cons_of_mem a (ih h)

/-- A successful match consumes at most the whole input. -/
theorem tryMatchAt_len_le {r : RE} {s : Str} {caps : Caps} {len : Nat}
    (h : tryMatchAt r s = some (caps, len)) : len ≤ s.length := by
  unfold tryMatchAt at h
  cases hm : mmatch r s [] (fun rest caps => some (caps, rest)) with
  | none => rw [hm] at h; exact absurd h (by simp)
  | some pr =>
    rw [hm] at h
    obtain ⟨caps', rest⟩ := pr
    simp at h
    omega

/-- Every end offset reported by the fuel-indexed scanner lies within the
input. -/
theorem reFindEndsFuel_le (r : RE) :
    ∀ (fuel pos : Nat) (s : Str), ∀ e ∈ reFindEndsFuel r fuel pos s, e ≤ pos + s.length := by
  intro fuel
  induction fuel with
  | zero => intro pos s e he; cases s <;> simp [reFindEndsFuel] at he
  | succ f ih =>
    intro pos s e he
    cases s with
    | nil => simp [reFindEndsFuel] at he
    | cons c t =>
      rw [reFindEndsFuel] at he
      split at he
      · rename_i caps0 len0 htm
        have hl : len0 ≤ (c :: t).length := tryMatchAt_len_le htm
        simp only [List.length_cons] at hl
        split at he
        · rename_i hlen
          rcases List.mem_cons.mp he with rfl | hmem
          · simp; omega
          · have hrec := ih (pos + len0) ((c :: t).drop len0) e hmem
            simp [List.length_drop] at hrec ⊢
            omega
        · have hrec := ih (pos + 1) t e he
          simp at hrec ⊢
          omega
      · have hrec := ih (pos + 1) t e he
        simp at hrec ⊢
        omega

/-- Every end offset reported by the scan lies within the input. -/
theorem reFindEnds_le (r : RE) (pos : Nat) (s : Str) :
    ∀ e ∈ reFindEnds r pos s, e ≤ pos + s.length :=
  fun e he => reFindEndsFuel_le r s.length pos s e he

/-- Shared helper: a file with neither marker is skipped untouched. -/
theorem process_file_skip (d : Bool) (c : Str)
    (h1 : hasSystemOut c = false) (h2 : hasSystemErr c = false) :
    process_file d c = ⟨c, c, false, false, .skipped⟩ := by
  simp [process_file, h1, h2]

/-- Shared helper: a relevant file the transformation leaves unchanged is
reported as needing no changes and is not written, in either mode. -/
theorem process_file_noChanges (d : Bool) (c : Str)
    (hrel : (!hasSystemOut c && !hasSystemErr c) = false)
    (hfix : transform c = c) :
    process_file d c = ⟨c, c, false, false, .noChanges⟩ := by
  simp [process_file, hrel, hfix]

/-- C4: a file whose content contains neither the standard-stream marker
`System.out` nor the error-stream marker `System.err` is reported as skipped
and left byte-for-byte unchanged: no write happens and the changed flag (the
update count contribution) is false, in either mode. -/
theorem c4_no_marker_file_untouched (d : Bool) (c : Str)
    (h1 : hasSystemOut c = false) (h2 : hasSystemErr c = false) :
    process_file d c = ⟨c, c, false, false, .skipped⟩ :=
  process_file_skip d c h1 h2

/-- Witness for C4 on a concrete markerless file. -/
theorem c4_witness :
    process_file false "public class A \x7b int x; \x7d".data =
      ⟨"public class A \x7b int x; \x7d".data,
       "public class A \x7b int x; \x7d".data, false, false, .skipped⟩ :=
  c4_no_marker_file_untouched false _ (by decide) (by decide)

/-- C7: in preview (dry-run) mode, a file that a real run would change keeps
its on-disk content byte-for-byte, nothing is written, and the printed message
says the file would be updated. -/
theorem c7_preview_mode_never_writes (c : Str)
    (h : (process_file false c).changed = true) :
    process_file true c = ⟨c, transform c, true, false, .wouldUpdate⟩ := by
  unfold process_file at h ⊢
  by_cases hrel : (!hasSystemOut c && !hasSystemErr c) = true
  · simp [hrel] at h
  · simp only [hrel] at h ⊢
    by_cases hne : transform c ≠ c
    · simp [hne]
    · simp [hne] at h

/-- Witness for C7 on a concrete file that a real run would change. -/
theorem c7_witness :
    process_file true "System.out.println(\"Hi\");".data =
      ⟨"System.out.println(\"Hi\");".data,
       transform "System.out.println(\"Hi\");".data, true, false, .wouldUpdate⟩ :=
  c7_preview_mode_never_writes _ (by decide)

/-- C9: the dry-run flag does not interfere with the per-file computation:
the computed content and the changed verdict coincide between a preview run
and a real run; the flag only suppresses the write (a preview run never
writes, a real run writes exactly when the content changed). -/
theorem c9_dry_run_noninterference (c : Str) :
    (process_file true c).computed = (process_file false c).computed ∧
    (process_file true c).changed = (process_file false c).changed ∧
    (process_file true c).wrote = false ∧
    (process_file false c).wrote = (process_file false c).changed := by
  unfold process_file
  by_cases hrel : (!hasSystemOut c && !hasSystemErr c) = true
  · simp [hrel]
  · by_cases hne : transform c ≠ c
    · simp [hrel, hne]
    · simp [hrel, hne]

/-- C8: a directory whose path contains the build-output marker `target` or
the version-control marker `.git` contributes nothing to discovery: no file
anywhere under it is collected into the processing list, and every descendant
root inherits the marker (so the collection loop skips each of them too). -/
theorem c8_marked_directory_collects_nothing (p : Str) (t : DirTree)
    (h : skipDir p = true) :
    javaFilesOf (walk p t) = [] ∧
    (∀ root fs, (root, fs) ∈ walk p t → skipDir root = true) := by
  refine ⟨javaFilesOf_walk_eq_nil p t h, fun root fs hm => ?_⟩
  obtain ⟨q, rfl⟩ := walk_root_extends p t root fs hm
  exact skipDir_append p q h

/-- Witness for C8: a `target` directory containing a Java file directly and
another in a nested subdirectory collects nothing. -/
theorem c8_witness :
    javaFilesOf (walk "./target".data
      (DirTree.node "target".data ["App.java".data]
        [DirTree.node "sub".data ["B.java".data] []])) = [] :=
  (c8_marked_directory_collects_nothing "./target".data
    (DirTree.node "target".data ["App.java".data]
      [DirTree.node "sub".data ["B.java".data] []]) (by decide)).1

/-- The counterexample content for the idempotence claim: two non-literal
calls on one line. -/
def cC1 : Str := "System.out.println(a); System.out.println(b);".data

/-- C1 counterexample: the claim fails on this content.  On the first run the
greedy non-literal pattern spans from the first call to the final `);`,
rewriting only the first call and leaving `System.out.println(b);` in place;
the second run (on the saved output of the first) finds a change again and
writes again instead of reporting that no changes are needed. -/
theorem c1_counterexample :
    transform (transform cC1) ≠ transform cC1 ∧
    (process_file false ((process_file false cC1).fileContent)).changed = true ∧
    (process_file false ((process_file false cC1).fileContent)).msg = .updated := by
  exact ⟨by decide, by decide, by decide⟩

/-- A file whose only out marker sits in a comment: its first-run output
retains the marker, yet is a fixed point of the transformation. -/
def cW1b : Str := "import a.b;\npublic class Bar \x7b\n// System.out note\n\x7d".data

/-- C1 amended: if the first-run output retains no stream marker, the second
run is a no-op — it is skipped by the relevance check, reports nothing to do,
performs no write and leaves the saved content identical (in either mode).
The condition is sufficient but not necessary: the first-run output of `cW1b`
keeps the out marker (inside a comment), yet its second run also computes the
identity, reports that no changes are needed and writes nothing. -/
theorem c1_amended_second_run_noop (d : Bool) (c : Str)
    (h1 : hasSystemOut ((process_file false c).fileContent) = false)
    (h2 : hasSystemErr ((process_file false c).fileContent) = false) :
    process_file d ((process_file false c).fileContent) =
      ⟨(process_file false c).fileContent, (process_file false c).fileContent,
       false, false, .skipped⟩ ∧
    (hasSystemOut ((process_file false cW1b).fileContent) = true ∧
     process_file d ((process_file false cW1b).fileContent) =
       ⟨(process_file false cW1b).fileContent, (process_file false cW1b).fileContent,
        false, false, .noChanges⟩) := by
  refine ⟨process_file_skip d _ h1 h2, by decide, ?_⟩
  exact process_file_noChanges d _ (by decide) (by decide)

/-- Concrete file fully migrated by one run. -/
def cW1 : Str := "import a.b;\npublic class Foo \x7b\nSystem.out.println(\"Hi\");\n\x7d".data

/-- Witness for the amended C1: after a first real run on `cW1`, a second run
is a no-op, and the comment-marker file shows the proviso is not necessary. -/
theorem c1_amended_witness :
    (process_file false ((process_file false cW1).fileContent) =
      ⟨(process_file false cW1).fileContent, (process_file false cW1).fileContent,
       false, false, .skipped⟩) ∧
    (hasSystemOut ((process_file false cW1b).fileContent) = true ∧
     process_file false ((process_file false cW1b).fileContent) =
       ⟨(process_file false cW1b).fileContent, (process_file false cW1b).fileContent,
        false, false, .noChanges⟩) :=
  c1_amended_second_run_noop false cW1 (by decide) (by decide)

/-- C2: when the marker import is absent, the import-insertion step leaves a
content with no import-statement match completely unchanged; when at least
one match exists it inserts exactly the two fixed SLF4J import lines
immediately after the end offset of the last match, all other characters
unchanged (the output is the original split at that offset with the fixed
text in between, and its length grows by exactly the inserted length). -/
theorem c2_import_insertion (c : Str) (_h : has_slf4j_import c = false) :
    (reFindEnds importRE 0 c = [] → add_slf4j_import c = c) ∧
    (∀ e, (reFindEnds importRE 0 c).getLast? = some e →
      e ≤ c.length ∧
      add_slf4j_import c = c.take e ++ slf4jImportsText ++ c.drop e ∧
      (add_slf4j_import c).length = c.length + slf4jImportsText.length) := by
  constructor
  · intro hnil
    simp [add_slf4j_import, hnil]
  · intro e he
    have hmem : e ∈ reFindEnds importRE 0 c := mem_of_getLast?_eq he
    have hb : e ≤ c.length := by
      have := reFindEnds_le importRE 0 c e hmem
      omega
    refine ⟨hb, by simp [add_slf4j_import, he], ?_⟩
    simp [add_slf4j_import, he, List.length_take, List.length_drop, List.length_append]
    omega

/-- Concrete file with two import statements, the last one ending at offset 34. -/
def cW2 : Str := "package p;\nimport a.b;\nimport c.d;\nclass X \x7b\x7d".data

/-- Witness for C2 at `cW2`. -/
theorem c2_witness :
    34 ≤ cW2.length ∧
    add_slf4j_import cW2 = cW2.take 34 ++ slf4jImportsText ++ cW2.drop 34 ∧
    (add_slf4j_import cW2).length = cW2.length + slf4jImportsText.length :=
  (c2_import_insertion cW2 (by decide)).2 34 (by decide)

/-- Fuel-indexed collector of the replacement texts emitted by `reSub` (same
scan, keeping the pieces instead of splicing them). -/
def reSubPiecesFuel (r : RE) (repl : Caps → Str) : Nat → Str → List Str
  | _, [] => []
  | 0, _ :: _ => []
  | fuel + 1, c :: t =>
    match tryMatchAt r (c :: t) with
    | some (caps, len) =>
      if 0 < len then repl caps :: reSubPiecesFuel r repl fuel ((c :: t).drop len)
      else reSubPiecesFuel r repl fuel t
    | none => reSubPiecesFuel r repl fuel t

/-- Replacement texts emitted by one `re.sub` pass over `s`. -/
def reSubPieces (r : RE) (repl : Caps → Str) (s : Str) : List Str :=
  reSubPiecesFuel r repl s.length s

/-- Every emitted piece is the replacement template applied to some captures. -/
theorem reSubPiecesFuel_shape (r : RE) (repl : Caps → Str) :
    ∀ (fuel : Nat) (s piece : Str), piece ∈ reSubPiecesFuel r repl fuel s →
      ∃ caps, piece = repl caps := by
  intro fuel
  induction fuel with
  | zero => intro s piece hp; cases s <;> simp [reSubPiecesFuel] at hp
  | succ f ih =>
    intro s piece hp
    cases s with
    | nil => simp [reSubPiecesFuel] at hp
    | cons c t =>
      rw [reSubPiecesFuel] at hp
      split at hp
      · rename_i caps0 len0 htm
        split at hp
        · rcases List.mem_cons.mp hp with rfl | hmem
          · exact ⟨caps0, rfl⟩
          · exact ih _ _ hmem
        · exact ih _ _ hp
      · exact ih _ _ hp

/-- Every piece of a `re.sub` pass is a replacement-template instance. -/
theorem reSubPieces_shape {r : RE} {repl : Caps → Str} {s piece : Str}
    (hp : piece ∈ reSubPieces r repl s) : ∃ caps, piece = repl caps :=
  reSubPiecesFuel_shape r repl s.length s piece hp

/-- Every emitted piece really appears inside the pass's output: the pieces
scan and the rewriting scan walk the input in lockstep. -/
theorem reSubPiecesFuel_infix (r : RE) (repl : Caps → Str) :
    ∀ (fuel : Nat) (s piece : Str), piece ∈ reSubPiecesFuel r repl fuel s →
      piece <:+: reSubFuel r repl fuel s := by
  intro fuel
  induction fuel with
  | zero => intro s piece hp; cases s <;> simp [reSubPiecesFuel] at hp
  | succ f ih =>
    intro s piece hp
    cases s with
    | nil => simp [reSubPiecesFuel] at hp
    | cons c t =>
      rw [reSubPiecesFuel] at hp
      rw [reSubFuel]
      split at hp
      · rename_i caps0 len0 htm
        split at hp
        · rename_i hlen
          rw [if_pos hlen]
          rcases List.mem_cons.mp hp with rfl | hmem
          · exact (List.prefix_append _ _).isInfix
          · exact ((ih _ _ hmem).trans (List.suffix_append _ _).isInfix)
        · rename_i hlen
          rw [if_neg hlen]
          exact ((ih _ _ hp).trans (List.suffix_cons _ _).isInfix)
      · exact ((ih _ _ hp).trans (List.suffix_cons _ _).isInfix)

/-- Every piece of a `re.sub` pass occurs inside the pass's output. -/
theorem reSubPieces_isInfix {r : RE} {repl : Caps → Str} {s piece : Str}
    (hp : piece ∈ reSubPieces r repl s) : piece <:+: reSub r repl s :=
  reSubPiecesFuel_infix r repl s.length s piece hp

/-- C5: fixed severity mapping.  Every replacement text that any of the three
standard-stream rules can emit begins with `log.info(`, and every replacement
text of the three error-stream rules begins with `log.error(`, independently
of the captured argument text; in particular the file consisting of
`System.out.println("Hello");` is transformed to exactly `log.info("Hello");`. -/
theorem c5_fixed_severity_mapping :
    (∀ rp : RE × (Caps → Str), rp ∈ [(out1RE, out1Repl), (out2RE, out2Repl), (out3RE, out3Repl)] →
      ∀ s piece, piece ∈ reSubPieces rp.1 rp.2 s →
        "log.info(".data <+: piece ∧ piece <:+: reSub rp.1 rp.2 s) ∧
    (∀ rp : RE × (Caps → Str), rp ∈ [(err1RE, err1Repl), (err2RE, err2Repl), (err3RE, err3Repl)] →
      ∀ s piece, piece ∈ reSubPieces rp.1 rp.2 s →
        "log.error(".data <+: piece ∧ piece <:+: reSub rp.1 rp.2 s) ∧
    transform "System.out.println(\"Hello\");".data = "log.info(\"Hello\");".data := by
  refine ⟨?_, ?_, by decide⟩
  · intro rp hrp s piece hp
    refine ⟨?_, reSubPieces_isInfix hp⟩
    rcases List.mem_cons.mp hrp with rfl | hrp
    · obtain ⟨caps, rfl⟩ := reSubPieces_shape hp
      exact (show "log.info(".data <+: "log.info(\"".data by decide).trans
        (List.prefix_append _ _)
    rcases List.mem_cons.mp hrp with rfl | hrp
    · obtain ⟨caps, rfl⟩ := reSubPieces_shape hp
      exact (show "log.info(".data <+: "log.info(\"".data by decide).trans
        (List.prefix_append _ _)
    rcases List.mem_cons.mp hrp with rfl | hrp
    · obtain ⟨caps, rfl⟩ := reSubPieces_shape hp
      exact (show "log.info(".data <+: "log.info(\"\x7b\x7d\",".data by decide).trans
        (List.prefix_append _ _)
    · cases hrp
  · intro rp hrp s piece hp
    refine ⟨?_, reSubPieces_isInfix hp⟩
    rcases List.mem_cons.mp hrp with rfl | hrp
    · obtain ⟨caps, rfl⟩ := reSubPieces_shape hp
      exact (show "log.error(".data <+: "log.error(\"".data by decide).trans
        (List.prefix_append _ _)
    rcases List.mem_cons.mp hrp with rfl | hrp
    · obtain ⟨caps, rfl⟩ := reSubPieces_shape hp
      exact (show "log.error(".data <+: "log.error(\"".data by decide).trans
        (List.prefix_append _ _)
    rcases List.mem_cons.mp hrp with rfl | hrp
    · obtain ⟨caps, rfl⟩ := reSubPieces_shape hp
      exact (show "log.error(".data <+: "log.error(\"\x7b\x7d\",".data by decide).trans
        (List.prefix_append _ _)
    · cases hrp

/-- Witness for C5: on the `Hello` file, the piece actually emitted by the
first rule starts with `log.info(`. -/
theorem c5_witness :
    "log.info(".data <+: out1Repl [(1, "Hello".data)] ∧
    out1Repl [(1, "Hello".data)] <:+:
      reSub out1RE out1Repl "System.out.println(\"Hello\");".data :=
  c5_fixed_severity_mapping.1 (out1RE, out1Repl) (by simp)
    "System.out.println(\"Hello\");".data (out1Repl [(1, "Hello".data)]) (by decide)

/-- The end offset of a found match lies within the scanned input. -/
theorem searchFrom_me_le (r : RE) :
    ∀ (s : Str) (pos : Nat) (res : SearchRes),
      searchFrom r pos s = some res → res.me ≤ pos + s.length := by
  intro s
  induction s with
  | nil =>
    intro pos res h
    rw [searchFrom] at h
    split at h
    · rename_i caps0 len0 htm
      have := tryMatchAt_len_le htm
      cases h
      simp at this ⊢
      omega
    · cases h
  | cons c t ih =>
    intro pos res h
    rw [searchFrom] at h
    split at h
    · rename_i caps0 len0 htm
      have := tryMatchAt_len_le htm
      cases h
      simp at this ⊢
      omega
    · have := ih (pos + 1) res h
      simp at this ⊢
      omega

/-- The end offset of a `re.search` match lies within the input. -/
theorem reSearch_me_le {r : RE} {s : Str} {res : SearchRes}
    (h : reSearch r s = some res) : res.me ≤ s.length := by
  have := searchFrom_me_le r s 0 res h
  omega

/-- Shared helper: the logger-declaration insertion splits the content at the
end offset of the class-opening-brace match. -/
theorem add_logger_declaration_eq {c cls : Str} {res : SearchRes}
    (h : reSearch (classHeadRE cls) c = some res) :
    add_logger_declaration c cls =
      c.take res.me ++ loggerDeclText cls ++ c.drop res.me ∧ res.me ≤ c.length := by
  exact ⟨by simp [add_logger_declaration, h], reSearch_me_le h⟩

/-- Shared helper: length of a spliced insertion. -/
theorem insert_length {c ins : Str} {e : Nat} (hb : e ≤ c.length) :
    (c.take e ++ ins ++ c.drop e).length = c.length + ins.length := by
  simp [List.length_append, List.length_take, List.length_drop]
  omega

/-- C10: a file whose content carries a stream marker only in positions where
no rewrite pattern matches (e.g. inside a comment), while lacking the marker
import, having at least one import statement, and having a recognized public
class with brace and no prior logger declaration, is still modified and
written: the saved content is the original with the two import lines inserted
after the last import and the logger declaration inserted after the class
brace, even though no output call was rewritten. -/
theorem c10_marker_in_comment_still_written (c : Str) (e : Nat) (cls : Str) (res : SearchRes)
    (hrel : hasSystemOut c = true ∨ hasSystemErr c = true)
    (himp : has_slf4j_import c = false)
    (he : (reFindEnds importRE 0 c).getLast? = some e)
    (hcn : get_class_name (add_slf4j_import c) = some cls)
    (hld : has_logger_declaration (add_slf4j_import c) = false)
    (hbr : reSearch (classHeadRE cls) (add_slf4j_import c) = some res)
    (hout : replace_system_out (add_logger_declaration (add_slf4j_import c) cls) =
      add_logger_declaration (add_slf4j_import c) cls)
    (herr : replace_system_err (add_logger_declaration (add_slf4j_import c) cls) =
      add_logger_declaration (add_slf4j_import c) cls) :
    process_file false c =
      ⟨add_logger_declaration (add_slf4j_import c) cls,
       add_logger_declaration (add_slf4j_import c) cls, true, true, .updated⟩ ∧
    add_logger_declaration (add_slf4j_import c) cls =
      (add_slf4j_import c).take res.me ++ loggerDeclText cls ++ (add_slf4j_import c).drop res.me ∧
    add_slf4j_import c = c.take e ++ slf4jImportsText ++ c.drop e := by
  have hmem : e ∈ reFindEnds importRE 0 c := mem_of_getLast?_eq he
  have hbe : e ≤ c.length := by have := reFindEnds_le importRE 0 c e hmem; omega
  have h1 : add_slf4j_import c = c.take e ++ slf4jImportsText ++ c.drop e := by
    simp [add_slf4j_import, he]
  obtain ⟨h2, hbme⟩ := add_logger_declaration_eq hbr
  have hlen1 : (add_slf4j_import c).length = c.length + slf4jImportsText.length := by
    rw [h1]; exact insert_length hbe
  have hlen2 : (add_logger_declaration (add_slf4j_import c) cls).length =
      (add_slf4j_import c).length + (loggerDeclText cls).length := by
    rw [h2]; exact insert_length hbme
  have htr : transform c = add_logger_declaration (add_slf4j_import c) cls := by
    rw [transform]
    simp only [himp, Bool.false_eq_true, if_false, hcn, hld, if_neg]
    rw [hout, herr]
  have hne : transform c ≠ c := by
    rw [htr]
    intro hEq
    have := congrArg List.length hEq
    rw [hlen2, hlen1] at this
    have hpos : 0 < (loggerDeclText cls).length := by
      simp [loggerDeclText]
    omega
  have hrelb : ¬((!hasSystemOut c && !hasSystemErr c) = true) := by
    rcases hrel with hrel | hrel <;> simp [hrel]
  refine ⟨?_, h2, h1⟩
  rw [process_file]
  rw [if_neg hrelb, if_pos hne, if_neg (by simp), htr]

/-- Concrete file whose only `System.out` sits in a comment. -/
def cW10 : Str := "import a.b;\npublic class Foo \x7b\n// System.out\n\x7d".data

/-- Witness for C10 at `cW10`: the file is written with imports and logger
declaration although no call is rewritten. -/
theorem c10_witness :
    process_file false cW10 =
      ⟨add_logger_declaration (add_slf4j_import cW10) "Foo".data,
       add_logger_declaration (add_slf4j_import cW10) "Foo".data, true, true, .updated⟩ ∧
    add_logger_declaration (add_slf4j_import cW10) "Foo".data =
      (add_slf4j_import cW10).take 87 ++ loggerDeclText "Foo".data ++
        (add_slf4j_import cW10).drop 87 ∧
    add_slf4j_import cW10 = cW10.take 11 ++ slf4jImportsText ++ cW10.drop 11 :=
  c10_marker_in_comment_still_written cW10 11 "Foo".data ⟨69, 87, []⟩
    (Or.inl (by decide)) (by decide) (by decide) (by decide) (by decide) (by decide)
    (by decide) (by decide)

/-- The counterexample content for the error-stream pattern-B claim: the
occurrence of the target fragment is preceded by an overlapping
`System.err.println("...: " + ...` head whose greedy second group (any
characters but `)`) swallows the whole occurrence. -/
def cC6 : Str :=
  "System.err.println(\"A: \" + System.err.println(\"Value: \" + x);".data

/-- C6 counterexample: this content contains the exact text
`System.err.println("Value: " + x);`, yet the transformed output does not
contain `log.error("Value: {}", x);` — the enclosing pattern-B match consumed
the occurrence and re-emitted it verbatim as its second argument, where the
later rules cannot rewrite it (its argument holds quotes). -/
theorem c6_counterexample :
    strIn "System.err.println(\"Value: \" + x);".data cC6 = true ∧
    strIn "log.error(\"Value: \x7b\x7d\", x);".data (transform cC6) = false ∧
    transform cC6 =
      "log.error(\"A: \x7b\x7d\", System.err.println(\"Value: \" + x);".data := by
  exact ⟨by decide, by decide, by decide⟩

/-- Single-statement file for the amended C6. -/
def cW6a : Str := "System.err.println(\"Value: \" + x);".data

/-- Class-embedded file for the amended C6. -/
def cW6b : Str :=
  "import a.b;\npublic class Foo \x7b\nvoid m() \x7b\nSystem.err.println(\"Value: \" + x);\n\x7d\n\x7d".data

/-! ### Occurrence counting and overlap-freeness, for the logger declaration -/

/-- Number of positions at which `needle` occurs as a substring of `hay`
(all start positions counted, overlapping ones included). -/
def occCount (needle : Str) : Str → Nat
  | [] => if needle.isEmpty then 1 else 0
  | c :: t => (if strPre needle (c :: t) then 1 else 0) + occCount needle t

/-- The marker core of a logger field declaration, exactly as inserted. -/
def declCore : Str := "private static final Logger log =".data

/-- Leading whitespace of the inserted declaration text. -/
def declP : Str := "\n\n    ".data

/-- Middle part of the inserted declaration text, between the assignment and
the class name. -/
def declQ : Str := " LoggerFactory.getLogger(".data

/-- Tail of the inserted declaration text after the class name. -/
def declPost : Str := ".class);".data

/-- Concrete prefix of the inserted declaration text up to the class name. -/
def declPre : Str := "\n\n    private static final Logger log = LoggerFactory.getLogger(".data

/-- Splitting the inserted declaration text at the class name. -/
theorem loggerDeclText_eq (cls : Str) :
    loggerDeclText cls = declPre ++ (cls ++ declPost) := by
  simp [loggerDeclText, declPre, declPost, List.append_assoc]

/-- Splitting the concrete prefix around the declaration marker core. -/
theorem declPre_eq : declPre = declP ++ (declCore ++ declQ) := by decide

/-- A list has no occurrence of a nonempty `needle` iff `needle` is a prefix
of no suffix. -/
theorem occCount_eq_zero_iff {D : Str} (hD : D ≠ []) :
    ∀ {s : Str}, occCount D s = 0 ↔ ∀ i, strPre D (s.drop i) = false := by
  intro s
  induction s with
  | nil =>
    obtain ⟨d, D', rfl⟩ : ∃ d D', D = d :: D' := by
      cases D with
      | nil => exact absurd rfl hD
      | cons d D' => exact ⟨d, D', rfl⟩
    simp [occCount, strPre]
  | cons c t ih =>
    rw [occCount]
    cases hpc : strPre D (c :: t) with
    | false =>
      rw [if_neg (by simp), Nat.zero_add, ih]
      constructor
      · intro h i
        cases i with
        | zero => rw [List.drop_zero]; exact hpc
        | succ j => rw [List.drop_succ_cons]; exact h j
      · intro h j
        have hj := h (j + 1)
        rwa [List.drop_succ_cons] at hj
    | true =>
      rw [if_pos rfl]
      constructor
      · intro h
        omega
      · intro h
        have h0 := h 0
        rw [List.drop_zero, hpc] at h0
        simp at h0

/-- If `D` occurs at `i0` and at no other position, the occurrence count is
exactly one. -/
theorem occCount_eq_one_of_unique {D : Str} (hD : D ≠ []) :
    ∀ {s : Str} {i0 : Nat}, strPre D (s.drop i0) = true →
      (∀ i, strPre D (s.drop i) = true → i = i0) →
      occCount D s = 1 := by
  intro s
  induction s with
  | nil =>
    intro i0 h0 _
    obtain ⟨d, D', rfl⟩ : ∃ d D', D = d :: D' := by
      cases D with
      | nil => exact absurd rfl hD
      | cons d D' => exact ⟨d, D', rfl⟩
    simp [strPre] at h0
  | cons c t ih =>
    intro i0 h0 huniq
    rw [occCount]
    cases i0 with
    | zero =>
      rw [List.drop_zero] at h0
      rw [if_pos (by rw [h0])]
      have hnone : ∀ j, strPre D (t.drop j) = false := by
        intro j
        cases hx : strPre D (t.drop j) with
        | false => rfl
        | true =>
          have := huniq (j + 1) (by rw [List.drop_succ_cons]; exact hx)
          omega
      rw [(occCount_eq_zero_iff hD).mpr hnone]
    | succ j0 =>
      have hind : strPre D (c :: t) = false := by
        cases hx : strPre D (c :: t) with
        | false => rfl
        | true =>
          have := huniq 0 (by rw [List.drop_zero]; exact hx)
          omega
      rw [if_neg (by rw [hind]; simp), Nat.zero_add]
      rw [List.drop_succ_cons] at h0
      refine ih h0 ?_
      intro i hi
      have := huniq (i + 1) (by rw [List.drop_succ_cons]; exact hi)
      omega

/-- A word is border-free when no proper nonempty prefix equals the suffix of
the same length (no self-overlap). -/
def borderFreeB (D : Str) : Bool :=
  (List.range D.length).all (fun j => j == 0 || D.take j != D.drop (D.length - j))

/-- Unfolded meaning of `borderFreeB`. -/
theorem borderFreeB_spec {D : Str} (h : borderFreeB D = true) {b : Nat}
    (hb0 : 0 < b) (hbD : b < D.length) : D.take b ≠ D.drop (D.length - b) := by
  rw [borderFreeB, List.all_eq_true] at h
  have hb := h b (List.mem_range.mpr hbD)
  simp only [Bool.or_eq_true, beq_iff_eq, bne_iff_ne, ne_eq] at hb
  rcases hb with hb | hb
  · omega
  · exact hb

/-- A border-free word is no prefix of a strict right-shift of itself inside
a longer text: `D` cannot start strictly inside leading junk `S` shorter than
`D` that is followed by `D` itself. -/
theorem no_border_overlap_left {D S w : Str} (hbf : borderFreeB D = true)
    (hS : S ≠ []) (hSlen : S.length < D.length)
    (hpre : strPre D (S ++ (D ++ w)) = true) : False := by
  rw [strPre_iff] at hpre
  obtain ⟨v, hv⟩ := hpre
  have htake := congrArg (List.take D.length) hv
  rw [List.take_append_eq_append_take, List.take_of_length_le (Nat.le_refl _),
    Nat.sub_self, List.take_zero, List.append_nil] at htake
  rw [List.take_append_eq_append_take, List.take_of_length_le (Nat.le_of_lt hSlen),
    List.take_append_eq_append_take] at htake
  have hDD : List.take (D.length - S.length) D ++
      List.take (D.length - S.length - D.length) w = List.take (D.length - S.length) D := by
    rw [show D.length - S.length - D.length = 0 by omega, List.take_zero, List.append_nil]
  rw [hDD] at htake
  have hdrop := congrArg (List.drop S.length) htake
  rw [List.drop_left] at hdrop
  have hb0 : 0 < D.length - S.length := by omega
  have hbD : D.length - S.length < D.length := by
    have := List.length_pos.mpr hS
    omega
  have := borderFreeB_spec hbf hb0 hbD
  rw [show D.length - (D.length - S.length) = S.length by omega] at this
  exact this hdrop.symm

/-- A border-free word is no prefix of a strict left-shift of itself: `D`
cannot start strictly inside its own copy. -/
theorem no_border_overlap_right {D w : Str} (hbf : borderFreeB D = true) {j : Nat}
    (hj0 : 0 < j) (hjD : j < D.length)
    (hpre : strPre D (D.drop j ++ w) = true) : False := by
  rw [strPre_iff] at hpre
  obtain ⟨v, hv⟩ := hpre
  have htake := congrArg (List.take (D.length - j)) hv
  rw [List.take_append_eq_append_take,
    show D.length - j - D.length = 0 by omega, List.take_zero, List.append_nil] at htake
  rw [show D.length - j = (D.drop j).length by rw [List.length_drop],
    List.take_left, List.length_drop] at htake
  have hb0 : 0 < D.length - j := by omega
  have hbD : D.length - j < D.length := by omega
  have := borderFreeB_spec hbf hb0 hbD
  rw [show D.length - (D.length - j) = j by omega] at this
  exact this htake

/-- A prefix determines the indexed characters. -/
theorem strPre_getElem? {D z : Str} (h : strPre D z = true) {j : Nat}
    (hj : j < D.length) : z[j]? = D[j]? := by
  rw [strPre_iff] at h
  obtain ⟨w, rfl⟩ := h
  exact List.getElem?_append_left hj

/-- An indexed character of a list is a member. -/
theorem mem_of_getElem?_eq_some {β : Type} {l : List β} {i : Nat} {x : β}
    (h : l[i]? = some x) : x ∈ l := by
  obtain ⟨hi, rfl⟩ := List.getElem?_eq_some.mp h
  exact List.getElem_mem hi

/-- Restriction of a prefix to a long enough left block. -/
theorem strPre_left_of_length_le {D x y : Str} (h : strPre D (x ++ y) = true)
    (hl : D.length ≤ x.length) : strPre D x = true := by
  rw [strPre_iff] at h ⊢
  exact List.prefix_of_prefix_length_le h (List.prefix_append x y) hl

/-- A prefix of a block is a prefix of the block extended on the right. -/
theorem strPre_append_left {D x : Str} (y : Str) (h : strPre D x = true) :
    strPre D (x ++ y) = true := by
  rw [strPre_iff] at h ⊢
  exact h.trans (List.prefix_append x y)

/-- Indexing the inserted block below the class name reads the concrete
prefix. -/
theorem declBlock_getElem_lt64 (tail : Str) {k : Nat} (hk : k < 64) :
    (declP ++ (declCore ++ (declQ ++ tail)))[k]? = declPre[k]? := by
  have hsplit : declP ++ (declCore ++ (declQ ++ tail)) = declPre ++ tail := by
    rw [declPre_eq]
    simp [List.append_assoc]
  rw [hsplit, List.getElem?_append_left (by rw [show declPre.length = 64 from by decide]; omega)]

/-- Indexing the inserted block at the class name and beyond. -/
theorem declBlock_getElem_ge64 (tail : Str) (q : Nat) :
    (declP ++ (declCore ++ (declQ ++ tail)))[64 + q]? = tail[q]? := by
  have hsplit : declP ++ (declCore ++ (declQ ++ tail)) = declPre ++ tail := by
    rw [declPre_eq]
    simp [List.append_assoc]
  rw [hsplit, List.getElem?_append_right (by rw [show declPre.length = 64 from by decide]; omega),
    show 64 + q - declPre.length = q from by rw [show declPre.length = 64 from by decide]; omega]

/-- The declaration marker occurs at the insertion point. -/
theorem declCore_occurs_at (α β cls : Str) :
    strPre declCore
      ((α ++ (declP ++ (declCore ++ (declQ ++ (cls ++ (declPost ++ β)))))).drop
        (α.length + 6)) = true := by
  rw [List.drop_append_eq_append_drop, List.drop_eq_nil_of_le (by omega), List.nil_append,
    show α.length + 6 - α.length = 6 from by omega,
    List.drop_append_eq_append_drop,
    List.drop_eq_nil_of_le (by rw [show declP.length = 6 from by decide] : declP.length ≤ 6),
    List.nil_append,
    show (6 : Nat) - declP.length = 0 from by rw [show declP.length = 6 from by decide],
    List.drop_zero]
  exact strPre_append_left _ (by decide)

/-- Uniqueness of the declaration-marker occurrence in the content after the
insertion: if the marker occurred nowhere in the original content (split as
`α ++ β` around the insertion point) and the class name consists of word
characters, the only occurrence in `α ++ inserted-text ++ β` is the inserted
one, six characters into the inserted text. -/
theorem declCore_unique_position (α β cls : Str)
    (hα : ∀ i, strPre declCore ((α ++ β).drop i) = false)
    (hcls : ∀ ch ∈ cls, isWordChar ch = true) :
    ∀ i, strPre declCore
        ((α ++ (declP ++ (declCore ++ (declQ ++ (cls ++ (declPost ++ β)))))).drop i) = true →
      i = α.length + 6 := by
  intro i hpre
  have hDlen : declCore.length = 33 := by decide
  have hPlen : declP.length = 6 := by decide
  have hQlen : declQ.length = 25 := by decide
  have hRlen : declPost.length = 8 := by decide
  have hbf : borderFreeB declCore = true := by decide
  rcases Nat.lt_or_ge i α.length with hia | hia
  · -- the window starts inside α
    have hdropT : (α ++ (declP ++ (declCore ++ (declQ ++ (cls ++ (declPost ++ β)))))).drop i =
        α.drop i ++ (declP ++ (declCore ++ (declQ ++ (cls ++ (declPost ++ β))))) := by
      rw [List.drop_append_eq_append_drop, Nat.sub_eq_zero_of_le (Nat.le_of_lt hia),
        List.drop_zero]
    rw [hdropT] at hpre
    rcases le_or_lt (i + 33) α.length with hfit | hcross
    · -- entirely inside α: lift to the original content
      have hlong : declCore.length ≤ (α.drop i).length := by
        rw [hDlen, List.length_drop]; omega
      have hin : strPre declCore (α.drop i) = true :=
        strPre_left_of_length_le hpre hlong
      have hlift : strPre declCore ((α ++ β).drop i) = true := by
        rw [List.drop_append_eq_append_drop, Nat.sub_eq_zero_of_le (Nat.le_of_lt hia),
          List.drop_zero]
        exact strPre_append_left β hin
      rw [hα i] at hlift
      cases hlift
    · -- crosses into the inserted text: position `α.length` holds a newline
      have hj : α.length - i < declCore.length := by omega
      have hz := strPre_getElem? hpre hj
      have hblock : (α.drop i ++ (declP ++ (declCore ++ (declQ ++
          (cls ++ (declPost ++ β))))))[α.length - i]? = some '\n' := by
        rw [List.getElem?_append_right (by rw [List.length_drop] : (α.drop i).length ≤ α.length - i),
          List.length_drop, show α.length - i - (α.length - i) = 0 from by omega,
          declBlock_getElem_lt64 _ (by omega)]
        decide
      rw [hblock] at hz
      have hmem : '\n' ∈ declCore := mem_of_getElem?_eq_some hz.symm
      exact absurd hmem (by decide)
  · -- the window starts at or after α
    obtain ⟨m, rfl⟩ : ∃ m, i = α.length + m := ⟨i - α.length, by omega⟩
    have hdropT : (α ++ (declP ++ (declCore ++ (declQ ++ (cls ++ (declPost ++ β)))))).drop
        (α.length + m) =
        (declP ++ (declCore ++ (declQ ++ (cls ++ (declPost ++ β))))).drop m := by
      rw [List.drop_append_eq_append_drop, List.drop_eq_nil_of_le (by omega), List.nil_append,
        show α.length + m - α.length = m from by omega]
    rw [hdropT] at hpre
    by_cases hm6 : m = 6
    · omega
    rcases Nat.lt_or_ge m 6 with hm | hm6'
    · -- inside the leading whitespace: left border overlap
      have hdrop2 : (declP ++ (declCore ++ (declQ ++ (cls ++ (declPost ++ β))))).drop m =
          declP.drop m ++ (declCore ++ (declQ ++ (cls ++ (declPost ++ β)))) := by
        rw [List.drop_append_eq_append_drop, Nat.sub_eq_zero_of_le (by rw [hPlen]; omega),
          List.drop_zero]
      rw [hdrop2] at hpre
      have hSne : declP.drop m ≠ [] := by
        have : 0 < (declP.drop m).length := by rw [List.length_drop, hPlen]; omega
        exact List.length_pos.mp this
      have hSlen : (declP.drop m).length < declCore.length := by
        rw [List.length_drop, hPlen, hDlen]; omega
      exact (no_border_overlap_left hbf hSne hSlen hpre).elim
    rcases Nat.lt_or_ge m 39 with hm39 | hm39
    · -- starts strictly inside the inserted marker: right border overlap
      have hdrop2 : (declP ++ (declCore ++ (declQ ++ (cls ++ (declPost ++ β))))).drop m =
          declCore.drop (m - 6) ++ (declQ ++ (cls ++ (declPost ++ β))) := by
        rw [List.drop_append_eq_append_drop, List.drop_eq_nil_of_le (by rw [hPlen]; omega),
          List.nil_append, hPlen, List.drop_append_eq_append_drop, hDlen,
          show m - 6 - 33 = 0 from by omega, List.drop_zero]
      rw [hdrop2] at hpre
      exact (no_border_overlap_right hbf (by omega : 0 < m - 6)
        (by rw [hDlen]; omega) hpre).elim
    rcases Nat.lt_or_ge m 64 with hm64 | hm64
    · -- starts inside the LoggerFactory part: position 63 holds '('
      have hj : 63 - m < declCore.length := by rw [hDlen]; omega
      have hz := strPre_getElem? hpre hj
      have hblock : ((declP ++ (declCore ++ (declQ ++ (cls ++ (declPost ++ β))))).drop
          m)[63 - m]? = some '(' := by
        rw [List.getElem?_drop, show m + (63 - m) = 63 from by omega,
          declBlock_getElem_lt64 _ (by omega)]
        decide
      rw [hblock] at hz
      have hmem : '(' ∈ declCore := mem_of_getElem?_eq_some hz.symm
      exact absurd hmem (by decide)
    rcases Nat.lt_or_ge m (64 + cls.length) with hmN | hmN
    · rcases Nat.lt_or_ge (m + 33) (64 + cls.length + 1) with hfitN | hcrossN
      · -- window inside the class name: offset 7 would be a space
        obtain ⟨q, rfl⟩ : ∃ q, m = 57 + q := ⟨m - 57, by omega⟩
        have hqlt : q < cls.length := by omega
        have hj : (7 : Nat) < declCore.length := by rw [hDlen]; omega
        have hz := strPre_getElem? hpre hj
        have hblock : ((declP ++ (declCore ++ (declQ ++ (cls ++ (declPost ++ β))))).drop
            (57 + q))[(7 : Nat)]? = cls[q]? := by
          rw [List.getElem?_drop, show 57 + q + 7 = 64 + q from by omega,
            declBlock_getElem_ge64, List.getElem?_append_left hqlt]
        rw [hblock, show declCore[(7 : Nat)]? = some ' ' from by decide] at hz
        have hmem : ' ' ∈ cls := mem_of_getElem?_eq_some hz
        have hw := hcls ' ' hmem
        exact absurd hw (by decide)
      · -- window reaches the text after the class name: '.' appears
        have hj : 64 + cls.length - m < declCore.length := by rw [hDlen]; omega
        have hz := strPre_getElem? hpre hj
        have hblock : ((declP ++ (declCore ++ (declQ ++ (cls ++ (declPost ++ β))))).drop
            m)[64 + cls.length - m]? = some '.' := by
          rw [List.getElem?_drop, show m + (64 + cls.length - m) = 64 + cls.length from by omega,
            declBlock_getElem_ge64, List.getElem?_append_right (Nat.le_refl _),
            Nat.sub_self, List.getElem?_append_left (by rw [hRlen]; omega)]
          decide
        rw [hblock] at hz
        have hmem : '.' ∈ declCore := mem_of_getElem?_eq_some hz.symm
        exact absurd hmem (by decide)
    rcases Nat.lt_or_ge m (72 + cls.length) with hmR | hmR
    · -- starts inside the `.class);` tail: ';' appears
      have hj : 71 + cls.length - m < declCore.length := by rw [hDlen]; omega
      have hz := strPre_getElem? hpre hj
      have hblock : ((declP ++ (declCore ++ (declQ ++ (cls ++ (declPost ++ β))))).drop
          m)[71 + cls.length - m]? = some ';' := by
        rw [List.getElem?_drop, show m + (71 + cls.length - m) = 64 + (cls.length + 7) from by omega,
          declBlock_getElem_ge64, List.getElem?_append_right (by omega : cls.length ≤ cls.length + 7),
          show cls.length + 7 - cls.length = 7 from by omega,
          List.getElem?_append_left (by rw [hRlen]; omega)]
        decide
      rw [hblock] at hz
      have hmem : ';' ∈ declCore := mem_of_getElem?_eq_some hz.symm
      exact absurd hmem (by decide)
    · -- window inside β: lift to the original content
      have hdrop2 : (declP ++ (declCore ++ (declQ ++ (cls ++ (declPost ++ β))))).drop m =
          β.drop (m - 72 - cls.length) := by
        rw [List.drop_append_eq_append_drop, List.drop_eq_nil_of_le (by rw [hPlen]; omega),
          List.nil_append, hPlen,
          List.drop_append_eq_append_drop, List.drop_eq_nil_of_le (by rw [hDlen]; omega),
          List.nil_append, hDlen,
          List.drop_append_eq_append_drop, List.drop_eq_nil_of_le (by rw [hQlen]; omega),
          List.nil_append, hQlen,
          List.drop_append_eq_append_drop, List.drop_eq_nil_of_le (by omega :
            cls.length ≤ m - 6 - 33 - 25),
          List.nil_append,
          List.drop_append_eq_append_drop, List.drop_eq_nil_of_le (by rw [hRlen]; omega),
          List.nil_append, hRlen,
          show m - 6 - 33 - 25 - cls.length - 8 = m - 72 - cls.length from by omega]
      rw [hdrop2] at hpre
      have hlift : strPre declCore ((α ++ β).drop (α.length + (m - 72 - cls.length))) =
          true := by
        rw [List.drop_append_eq_append_drop, List.drop_eq_nil_of_le (by omega), List.nil_append,
          show α.length + (m - 72 - cls.length) - α.length = m - 72 - cls.length from by omega]
        exact hpre
      rw [hα _] at hlift
      cases hlift

/-- The counterexample content for the insertion claim: the class is declared
`public final class`, which the class-name pattern (`public` directly followed
by `class`) does not recognize. -/
def cC3 : Str :=
  "import a.b;\npublic final class Foo \x7b\nSystem.out.println(\"x\");\n\x7d".data

/-- C3 counterexample: this file has an import statement, no SLF4J import and
a relevant call, yet the transformed output contains no logger field
declaration at all (the class-name extraction fails on `public final class`,
so the insertion is silently skipped), contradicting the claimed "exactly one
logger field declaration". -/
theorem c3_counterexample :
    (reFindEnds importRE 0 cC3 ≠ [] ∧ has_slf4j_import cC3 = false ∧
      hasSystemOut cC3 = true) ∧
    has_logger_declaration (transform cC3) = false ∧
    occCount declCore (transform cC3) = 0 := by
  exact ⟨⟨by decide, by decide, by decide⟩, by decide, by decide⟩

/-! ### Capture soundness: group texts consist of the group's class -/

/-- Every capture's text consists of characters allowed for its group. -/
def CapsGood (P : Nat → Char → Bool) (caps : Caps) : Prop :=
  ∀ pr ∈ caps, ∀ ch ∈ pr.2, P pr.1 ch = true

/-- Every group of the pattern only admits characters its index allows. -/
def REGrpsGood (P : Nat → Char → Bool) : RE → Prop
  | .lit _ => True
  | .star _ => True
  | .plus _ => True
  | .seq a b => REGrpsGood P a ∧ REGrpsGood P b
  | .opt r => REGrpsGood P r
  | .grpPlus i p => ∀ ch, p ch = true → P i ch = true

/-- Extending a good capture list with a good group text keeps it good. -/
theorem capsGood_cons {P : Nat → Char → Bool} {i : Nat} {acc : Str} {caps : Caps}
    (h1 : ∀ ch ∈ acc, P i ch = true) (h2 : CapsGood P caps) :
    CapsGood P ((i, acc) :: caps) := by
  intro pr hpr
  rcases List.mem_cons.mp hpr with h | h
  · subst h
    exact h1
  · exact h2 pr h

/-- `greedyStar` never touches the captures: goodness is preserved. -/
theorem greedyStar_sound (P : Nat → Char → Bool) (p : Char → Bool)
    (k : Str → Caps → Option (Caps × Str))
    (hk : ∀ s caps res, CapsGood P caps → k s caps = some res → CapsGood P res.1) :
    ∀ (s : Str) (caps : Caps) (res : Caps × Str), CapsGood P caps →
      greedyStar p k s caps = some res → CapsGood P res.1 := by
  intro s
  induction s with
  | nil =>
    intro caps res hcaps h
    exact hk _ _ _ hcaps h
  | cons c t ih =>
    intro caps res hcaps h
    rw [greedyStar] at h
    by_cases hpc : p c
    · rw [if_pos hpc] at h
      cases hg : greedyStar p k t caps with
      | some r2 =>
        rw [hg] at h
        injection h with h2
        rw [← h2]
        exact ih caps r2 hcaps hg
      | none =>
        rw [hg] at h
        exact hk _ _ _ hcaps h
    · rw [if_neg hpc] at h
      exact hk _ _ _ hcaps h

/-- `greedyCapStar` records only characters of its group's class. -/
theorem greedyCapStar_sound (P : Nat → Char → Bool) (p : Char → Bool) (i : Nat)
    (hp : ∀ ch, p ch = true → P i ch = true)
    (k : Str → Caps → Option (Caps × Str))
    (hk : ∀ s caps res, CapsGood P caps → k s caps = some res → CapsGood P res.1) :
    ∀ (s acc : Str) (caps : Caps) (res : Caps × Str),
      (∀ ch ∈ acc, p ch = true) → CapsGood P caps →
      greedyCapStar p i k acc s caps = some res → CapsGood P res.1 := by
  intro s
  induction s with
  | nil =>
    intro acc caps res hacc hcaps h
    exact hk _ _ _ (capsGood_cons (fun ch hch => hp ch (hacc ch hch)) hcaps) h
  | cons c t ih =>
    intro acc caps res hacc hcaps h
    rw [greedyCapStar] at h
    by_cases hpc : p c
    · rw [if_pos hpc] at h
      cases hg : greedyCapStar p i k (acc ++ [c]) t caps with
      | some r2 =>
        rw [hg] at h
        injection h with h2
        rw [← h2]
        refine ih (acc ++ [c]) caps r2 ?_ hcaps hg
        intro ch hch
        rcases List.mem_append.mp hch with h2 | h2
        · exact hacc ch h2
        · rw [List.mem_singleton.mp h2]
          exact hpc
      | none =>
        rw [hg] at h
        exact hk _ _ _ (capsGood_cons (fun ch hch => hp ch (hacc ch hch)) hcaps) h
    · rw [if_neg hpc] at h
      exact hk _ _ _ (capsGood_cons (fun ch hch => hp ch (hacc ch hch)) hcaps) h

/-- The matcher only ever adds captures that respect their group's class. -/
theorem mmatch_caps_sound (P : Nat → Char → Bool) :
    ∀ (r : RE), REGrpsGood P r →
    ∀ (k : Str → Caps → Option (Caps × Str)),
      (∀ s caps res, CapsGood P caps → k s caps = some res → CapsGood P res.1) →
    ∀ (s : Str) (caps : Caps) (res : Caps × Str), CapsGood P caps →
      mmatch r s caps k = some res → CapsGood P res.1 := by
  intro r
  induction r with
  | lit cs =>
    intro _ k hk s caps res hcaps h
    rw [mmatch] at h
    by_cases hpre : strPre cs s
    · rw [if_pos hpre] at h
      exact hk _ _ _ hcaps h
    · rw [if_neg hpre] at h
      cases h
  | star p =>
    intro _ k hk s caps res hcaps h
    exact greedyStar_sound P p k hk s caps res hcaps h
  | plus p =>
    intro _ k hk s caps res hcaps h
    cases s with
    | nil =>
      have h2 : (none : Option (Caps × Str)) = some res := h
      cases h2
    | cons c t =>
      have h2 : (if p c then greedyStar p k t caps else none) = some res := h
      by_cases hpc : p c
      · rw [if_pos hpc] at h2
        exact greedyStar_sound P p k hk t caps res hcaps h2
      · rw [if_neg hpc] at h2
        cases h2
  | seq a b iha ihb =>
    intro hg k hk s caps res hcaps h
    have h2 : mmatch a s caps (fun s1 caps1 => mmatch b s1 caps1 k) = some res := h
    exact iha hg.1 _ (fun s1 c1 r1 hc1 h1 => ihb hg.2 k hk s1 c1 r1 hc1 h1)
      s caps res hcaps h2
  | opt r ih =>
    intro hg k hk s caps res hcaps h
    have h2 : (match mmatch r s caps k with
        | some r0 => some r0
        | none => k s caps) = some res := h
    cases hm : mmatch r s caps k with
    | some r2 =>
      rw [hm] at h2
      injection h2 with h3
      rw [← h3]
      exact ih hg k hk s caps r2 hcaps hm
    | none =>
      rw [hm] at h2
      exact hk _ _ _ hcaps h2
  | grpPlus i p =>
    intro hg k hk s caps res hcaps h
    cases s with
    | nil =>
      have h2 : (none : Option (Caps × Str)) = some res := h
      cases h2
    | cons c t =>
      have h2 : (if p c then greedyCapStar p i k [c] t caps else none) = some res := h
      by_cases hpc : p c
      · rw [if_pos hpc] at h2
        refine greedyCapStar_sound P p i hg k hk t [c] caps res ?_ hcaps h2
        intro ch hch
        rw [List.mem_singleton.mp hch]
        exact hpc
      · rw [if_neg hpc] at h2
        cases h2

/-- Captures of a successful anchored match respect their groups' classes. -/
theorem tryMatchAt_caps_sound (P : Nat → Char → Bool) {r : RE} (hr : REGrpsGood P r)
    {s : Str} {caps : Caps} {len : Nat} (h : tryMatchAt r s = some (caps, len)) :
    CapsGood P caps := by
  rw [tryMatchAt] at h
  cases hm : mmatch r s [] (fun rest caps => some (caps, rest)) with
  | none =>
    rw [hm] at h
    cases h
  | some pr =>
    obtain ⟨caps2, rest⟩ := pr
    rw [hm] at h
    have hc : caps2 = caps := by
      have h2 : some (caps2, s.length - rest.length) = some (caps, len) := h
      injection h2 with h3
      exact congrArg Prod.fst h3
    subst hc
    exact mmatch_caps_sound P r hr _
      (fun s1 c1 r1 hc1 h1 => by cases h1; exact hc1)
      s [] (caps2, rest) (fun pr hpr => absurd hpr (List.not_mem_nil pr)) hm

/-- A successful search's captures come from an anchored match at some
position. -/
theorem searchFrom_caps {r : RE} :
    ∀ (s : Str) (pos : Nat) (res : SearchRes), searchFrom r pos s = some res →
      ∃ i caps len, tryMatchAt r (s.drop i) = some (caps, len) ∧ res.caps = caps := by
  intro s
  induction s with
  | nil =>
    intro pos res h
    rw [searchFrom] at h
    split at h
    · rename_i caps len htm
      cases h
      exact ⟨0, caps, len, by rw [List.drop_nil]; exact htm, rfl⟩
    · cases h
  | cons c t ih =>
    intro pos res h
    rw [searchFrom] at h
    split at h
    · rename_i caps len htm
      cases h
      exact ⟨0, caps, len, by rw [List.drop_zero]; exact htm, rfl⟩
    · obtain ⟨i, caps, len, htm, hcaps⟩ := ih (pos + 1) res h
      exact ⟨i + 1, caps, len, by rw [List.drop_succ_cons]; exact htm, hcaps⟩

/-- A failed search means no anchored match at any position. -/
theorem searchFrom_none_pos {r : RE} :
    ∀ (s : Str) (pos : Nat), searchFrom r pos s = none →
      ∀ i, tryMatchAt r (s.drop i) = none := by
  intro s
  induction s with
  | nil =>
    intro pos h i
    rw [List.drop_nil]
    rw [searchFrom] at h
    split at h
    · cases h
    · rename_i htm
      exact htm
  | cons c t ih =>
    intro pos h i
    rw [searchFrom] at h
    split at h
    · cases h
    · rename_i htm
      cases i with
      | zero =>
        rw [List.drop_zero]
        exact htm
      | succ j =>
        rw [List.drop_succ_cons]
        exact ih (pos + 1) h j

/-- A name extracted by `get_class_name` consists of word characters. -/
theorem get_class_name_word {c1 cls : Str} (h : get_class_name c1 = some cls) :
    ∀ ch ∈ cls, isWordChar ch = true := by
  rw [get_class_name] at h
  cases hr : reSearch classNameRE c1 with
  | none =>
    rw [hr] at h
    cases h
  | some res =>
    rw [hr] at h
    have hcls : capGet res.caps 1 = cls := by
      have h2 : some (capGet res.caps 1) = some cls := h
      injection h2
    obtain ⟨i, caps, len, htm, hcaps⟩ := searchFrom_caps c1 0 res hr
    have hre : REGrpsGood (fun _ ch => isWordChar ch) classNameRE := by
      show True ∧ (True ∧ (True ∧ (True ∧
        ∀ ch, isWordChar ch = true → isWordChar ch = true)))
      exact ⟨trivial, trivial, trivial, trivial, fun _ h2 => h2⟩
    have hgood : CapsGood (fun _ ch => isWordChar ch) caps :=
      tryMatchAt_caps_sound _ hre htm
    subst hcls
    rw [hcaps]
    intro ch hch
    cases hfind : caps.find? (fun pr => pr.1 == 1) with
    | none =>
      rw [capGet, hfind] at hch
      cases hch
    | some pr =>
      have hmem := List.mem_of_find?_eq_some hfind
      rw [capGet, hfind] at hch
      exact hgood pr hmem ch hch

/-- The logger-declaration pattern matches wherever its marker core is a
prefix, consuming exactly the core. -/
theorem loggerDecl_matches_core (y : Str) :
    tryMatchAt loggerDeclRE (declCore ++ y) = some ([], 33) := by
  have h : mmatch loggerDeclRE (declCore ++ y) [] (fun rest caps => some (caps, rest)) =
      some ([], y) := rfl
  simp [tryMatchAt, h, List.length_append, show declCore.length = 33 from rfl]

/-- If the regex check finds no logger declaration, the marker core occurs
nowhere in the content. -/
theorem occ_zero_of_no_logger_decl {c1 : Str}
    (hld : has_logger_declaration c1 = false) : occCount declCore c1 = 0 := by
  rw [occCount_eq_zero_iff (by decide)]
  intro i
  cases hx : strPre declCore (c1.drop i) with
  | false => rfl
  | true =>
    exfalso
    obtain ⟨y, hy⟩ := strPre_iff.mp hx
    rw [has_logger_declaration] at hld
    have hnone : reSearch loggerDeclRE c1 = none := by
      cases hr : reSearch loggerDeclRE c1 with
      | none => rfl
      | some res =>
        rw [hr] at hld
        simp at hld
    have h2 := searchFrom_none_pos c1 0 hnone i
    rw [← hy, loggerDecl_matches_core y] at h2
    cases h2

/-- C3 amended: when additionally the class-name pattern yields a name, the
class-opening-brace pattern is found, and the logger-declaration regex check
is negative, the insertion stages produce exactly the claimed content: the
two import lines are spliced in immediately after the last import's end
offset, the logger declaration for the extracted class is spliced in
immediately after the brace-match end, the content after the insertions
contains exactly one occurrence of the logger field declaration marker, and
the final output is the six call rewrites applied to that content. -/
theorem c3_amended_insertion_positions (c : Str) (e : Nat) (cls : Str) (res : SearchRes)
    (_hrel : hasSystemOut c = true ∨ hasSystemErr c = true)
    (himp : has_slf4j_import c = false)
    (he : (reFindEnds importRE 0 c).getLast? = some e)
    (hcn : get_class_name (add_slf4j_import c) = some cls)
    (hld : has_logger_declaration (add_slf4j_import c) = false)
    (hbr : reSearch (classHeadRE cls) (add_slf4j_import c) = some res) :
    add_slf4j_import c = c.take e ++ slf4jImportsText ++ c.drop e ∧
    add_logger_declaration (add_slf4j_import c) cls =
      (add_slf4j_import c).take res.me ++ loggerDeclText cls ++
        (add_slf4j_import c).drop res.me ∧
    occCount declCore (add_logger_declaration (add_slf4j_import c) cls) = 1 ∧
    transform c =
      replace_system_err (replace_system_out
        (add_logger_declaration (add_slf4j_import c) cls)) := by
  have hocc : occCount declCore (add_slf4j_import c) = 0 := occ_zero_of_no_logger_decl hld
  have hcls : ∀ ch ∈ cls, isWordChar ch = true := get_class_name_word hcn
  obtain ⟨h2, _⟩ := add_logger_declaration_eq hbr
  refine ⟨by simp [add_slf4j_import, he], h2, ?_, ?_⟩
  · have hT : add_logger_declaration (add_slf4j_import c) cls =
        (add_slf4j_import c).take res.me ++
          (declP ++ (declCore ++ (declQ ++ (cls ++
            (declPost ++ (add_slf4j_import c).drop res.me))))) := by
      rw [h2, loggerDeclText_eq, declPre_eq]
      simp [List.append_assoc]
    have hαβ : (add_slf4j_import c).take res.me ++ (add_slf4j_import c).drop res.me =
        add_slf4j_import c := List.take_append_drop _ _
    have hα : ∀ i, strPre declCore
        (((add_slf4j_import c).take res.me ++ (add_slf4j_import c).drop res.me).drop i) =
          false := by
      rw [hαβ]
      exact (occCount_eq_zero_iff (by decide)).mp hocc
    rw [hT]
    exact occCount_eq_one_of_unique (by decide)
      (declCore_occurs_at _ _ cls)
      (declCore_unique_position _ _ cls hα hcls)
  · rw [transform]
    simp only [himp, Bool.false_eq_true, if_false, hcn, hld, if_neg]

/-- Concrete file for the amended C3. -/
def cW3 : Str := "import a.b;\npublic class Foo \x7b\nSystem.out.println(\"x\");\n\x7d".data

/-- Witness for the amended C3 at `cW3`. -/
theorem c3_witness :
    add_slf4j_import cW3 = cW3.take 11 ++ slf4jImportsText ++ cW3.drop 11 ∧
    add_logger_declaration (add_slf4j_import cW3) "Foo".data =
      (add_slf4j_import cW3).take 87 ++ loggerDeclText "Foo".data ++
        (add_slf4j_import cW3).drop 87 ∧
    occCount declCore (add_logger_declaration (add_slf4j_import cW3) "Foo".data) = 1 ∧
    transform cW3 =
      replace_system_err (replace_system_out
        (add_logger_declaration (add_slf4j_import cW3) "Foo".data)) :=
  c3_amended_insertion_positions cW3 11 "Foo".data ⟨69, 87, []⟩
    (Or.inl (by decide)) (by decide) (by decide) (by decide) (by decide) (by decide)

/-! ### Scanning lemmas: where a substitution pass can and cannot act -/

/-- A prefix occurrence at any position makes the substring test true. -/
theorem strIn_of_strPre_drop {L : Str} :
    ∀ (s : Str) (i : Nat), strPre L (s.drop i) = true → strIn L s = true := by
  intro s
  induction s with
  | nil =>
    intro i h
    rw [List.drop_nil] at h
    cases L with
    | nil => simp [strIn, strPre]
    | cons a as => simp [strPre] at h
  | cons c t ih =>
    intro i h
    rw [strIn, Bool.or_eq_true]
    cases i with
    | zero => rw [List.drop_zero] at h; exact Or.inl h
    | succ j =>
      rw [List.drop_succ_cons] at h
      exact Or.inr (ih j h)

/-- A pattern that begins with a literal cannot match where the literal is
not a prefix. -/
theorem tryMatchAt_head_none {L : Str} (r2 : RE) {s : Str} (h : strPre L s = false) :
    tryMatchAt (.seq (.lit L) r2) s = none := by
  simp [tryMatchAt, mmatch, h]

/-- A pattern whose head literal extends a marker cannot match where the
marker is not a prefix. -/
theorem tryMatchAt_none_of_marker {mk L : Str} (r2 : RE) (hml : mk <+: L) {s : Str}
    (h : strPre mk s = false) : tryMatchAt (.seq (.lit L) r2) s = none := by
  refine tryMatchAt_head_none r2 ?_
  cases hx : strPre L s with
  | false => rfl
  | true =>
    have : strPre mk s = true := strPre_iff.mpr (hml.trans (strPre_iff.mp hx))
    rw [h] at this
    cases this

/-- The fuel is irrelevant as soon as it covers the input length. -/
theorem reSubFuel_congr (r : RE) (repl : Caps → Str) :
    ∀ (f1 f2 : Nat) (s : Str), s.length ≤ f1 → s.length ≤ f2 →
      reSubFuel r repl f1 s = reSubFuel r repl f2 s := by
  intro f1
  induction f1 with
  | zero =>
    intro f2 s h1 _
    have hs : s = [] := List.eq_nil_of_length_eq_zero (by omega)
    subst hs
    cases f2 <;> rfl
  | succ f ih =>
    intro f2 s h1 h2
    cases s with
    | nil => cases f2 <;> rfl
    | cons c t =>
      cases f2 with
      | zero => simp at h2
      | succ f2' =>
        rw [reSubFuel, reSubFuel]
        cases htm : tryMatchAt r (c :: t) with
        | some pr =>
          obtain ⟨caps, len⟩ := pr
          have hlenle : len ≤ (c :: t).length := tryMatchAt_len_le htm
          simp only [List.length_cons] at hlenle h1 h2
          show (if 0 < len then repl caps ++ reSubFuel r repl f (List.drop len (c :: t))
                else c :: reSubFuel r repl f t)
              = (if 0 < len then repl caps ++ reSubFuel r repl f2' (List.drop len (c :: t))
                else c :: reSubFuel r repl f2' t)
          by_cases hlen : 0 < len
          · rw [if_pos hlen, if_pos hlen]
            congr 1
            exact ih f2' _ (by simp [List.length_drop]; omega)
              (by simp [List.length_drop]; omega)
          · rw [if_neg hlen, if_neg hlen]
            congr 1
            exact ih f2' t (by omega) (by omega)
        | none =>
          show c :: reSubFuel r repl f t = c :: reSubFuel r repl f2' t
          congr 1
          simp only [List.length_cons] at h1 h2
          exact ih f2' t (by omega) (by omega)

/-- A pass that can match nowhere leaves the text unchanged. -/
theorem reSubFuel_id_of_none (r : RE) (repl : Caps → Str) :
    ∀ (fuel : Nat) (s : Str), s.length ≤ fuel →
      (∀ i, tryMatchAt r (s.drop i) = none) → reSubFuel r repl fuel s = s := by
  intro fuel
  induction fuel with
  | zero =>
    intro s hl _
    have hs : s = [] := List.eq_nil_of_length_eq_zero (by omega)
    subst hs
    rfl
  | succ f ih =>
    intro s hl hnone
    cases s with
    | nil => rfl
    | cons c t =>
      have h0 := hnone 0
      rw [List.drop_zero] at h0
      rw [reSubFuel, h0]
      show c :: reSubFuel r repl f t = c :: t
      rw [ih t (by simp only [List.length_cons] at hl; omega)
        (fun i => by have := hnone (i + 1); rwa [List.drop_succ_cons] at this)]

/-- Substitution wrapper of the no-match identity. -/
theorem reSub_id_of_none {r : RE} {repl : Caps → Str} {s : Str}
    (hnone : ∀ i, tryMatchAt r (s.drop i) = none) : reSub r repl s = s :=
  reSubFuel_id_of_none r repl s.length s (Nat.le_refl _) hnone

/-- With no match starting inside a left block, the scan passes it through
verbatim and continues on the remainder. -/
theorem reSubFuel_pass_left (r : RE) (repl : Caps → Str) (rest : Str) :
    ∀ (a : Str), (∀ i, i < a.length → tryMatchAt r ((a ++ rest).drop i) = none) →
      reSubFuel r repl (a.length + rest.length) (a ++ rest) =
        a ++ reSubFuel r repl rest.length rest := by
  intro a
  induction a with
  | nil => intro _; simp
  | cons c a2 ih =>
    intro hnone
    have h0 := hnone 0 (by simp)
    rw [List.drop_zero, List.cons_append] at h0
    rw [List.cons_append,
      show (c :: a2).length + rest.length = (a2.length + rest.length) + 1 from by
        simp [Nat.add_right_comm],
      reSubFuel, h0]
    show c :: reSubFuel r repl (a2.length + rest.length) (a2 ++ rest)
        = c :: (a2 ++ reSubFuel r repl rest.length rest)
    rw [ih (fun i hi => by
      have := hnone (i + 1) (by simpa using Nat.succ_lt_succ hi)
      rwa [List.cons_append, List.drop_succ_cons] at this)]

/-- When the pattern matches a full block at the head, the scan emits the
replacement and resumes right after the block. -/
theorem reSub_match_step {r : RE} {repl : Caps → Str} {f2 rest : Str} {caps : Caps}
    (hne : f2 ≠ []) (hm : tryMatchAt r (f2 ++ rest) = some (caps, f2.length)) :
    reSub r repl (f2 ++ rest) = repl caps ++ reSub r repl rest := by
  cases f2 with
  | nil => exact absurd rfl hne
  | cons c t =>
    rw [reSub,
      show ((c :: t) ++ rest).length = (t.length + rest.length) + 1 from by
        simp [List.length_append, Nat.add_right_comm],
      List.cons_append, reSubFuel]
    rw [List.cons_append] at hm
    rw [hm]
    show (if 0 < (c :: t).length then
            repl caps ++ reSubFuel r repl (t.length + rest.length)
              ((c :: (t ++ rest)).drop (c :: t).length)
          else c :: reSubFuel r repl (t.length + rest.length) (t ++ rest))
        = repl caps ++ reSub r repl rest
    rw [if_pos (by simp)]
    congr 1
    rw [List.length_cons, List.drop_succ_cons, List.drop_left]
    rw [reSub]
    exact reSubFuel_congr r repl (t.length + rest.length) rest.length rest
      (by omega) (Nat.le_refl _)

/-- Substitution wrapper of the pass-through lemma. -/
theorem reSub_append_left {r : RE} {repl : Caps → Str} {a rest : Str}
    (hnone : ∀ i, i < a.length → tryMatchAt r ((a ++ rest).drop i) = none) :
    reSub r repl (a ++ rest) = a ++ reSub r repl rest := by
  rw [reSub, reSub, List.length_append]
  exact reSubFuel_pass_left r repl rest a hnone

/-- In a context a ++ frag1 ++ b where a marker string occurs in neither a
nor b, where the junction and interior characters rule out straddling
occurrences, the marker is a prefix at no position other than the start of
frag1. -/
theorem marker_position_analysis (mk a frag1 b : Str) (hd0 hdm : Char)
    (hma : strIn mk a = false) (hmb : strIn mk b = false)
    (hmk0 : mk[0]? = some hdm)
    (hfrag0 : frag1[0]? = some hd0)
    (hjunc : hd0 ∈ mk.drop 1 → False)
    (hfragS : hdm ∈ frag1.drop 1 → False) :
    ∀ i, i ≠ a.length → strPre mk ((a ++ (frag1 ++ b)).drop i) = false := by
  intro i hne
  cases hx : strPre mk ((a ++ (frag1 ++ b)).drop i) with
  | false => rfl
  | true =>
    exfalso
    have hmklen : 0 < mk.length := by
      cases mk with
      | nil => simp at hmk0
      | cons u v => simp
    have hfraglen : 0 < frag1.length := by
      cases frag1 with
      | nil => simp at hfrag0
      | cons u v => simp
    rcases Nat.lt_or_ge i a.length with hia | hia
    · have hdropT : (a ++ (frag1 ++ b)).drop i = a.drop i ++ (frag1 ++ b) := by
        rw [List.drop_append_eq_append_drop, Nat.sub_eq_zero_of_le (Nat.le_of_lt hia),
          List.drop_zero]
      rw [hdropT] at hx
      rcases le_or_lt (i + mk.length) a.length with hfit | hcross
      · have hin : strPre mk (a.drop i) = true :=
          strPre_left_of_length_le hx (by rw [List.length_drop]; omega)
        have := strIn_of_strPre_drop a i hin
        rw [hma] at this
        cases this
      · have hj : a.length - i < mk.length := by omega
        have hz := strPre_getElem? hx hj
        have hblock : (a.drop i ++ (frag1 ++ b))[a.length - i]? = some hd0 := by
          rw [List.getElem?_append_right (by rw [List.length_drop]),
            List.length_drop, Nat.sub_self,
            List.getElem?_append_left hfraglen]
          exact hfrag0
        rw [hblock] at hz
        have : (mk.drop 1)[a.length - i - 1]? = some hd0 := by
          rw [List.getElem?_drop, show 1 + (a.length - i - 1) = a.length - i from by omega]
          exact hz.symm
        exact hjunc (mem_of_getElem?_eq_some this)
    · obtain ⟨j, rfl⟩ : ∃ j, i = a.length + j := ⟨i - a.length, by omega⟩
      have hj0 : 0 < j := by omega
      have hdropT : (a ++ (frag1 ++ b)).drop (a.length + j) = (frag1 ++ b).drop j := by
        rw [List.drop_append_eq_append_drop, List.drop_eq_nil_of_le (by omega),
          List.nil_append, show a.length + j - a.length = j from by omega]
      rw [hdropT] at hx
      rcases Nat.lt_or_ge j frag1.length with hjf | hjf
      · have hz := strPre_getElem? hx hmklen
        have hblock : ((frag1 ++ b).drop j)[0]? = frag1[j]? := by
          rw [List.getElem?_drop, Nat.add_zero, List.getElem?_append_left hjf]
        rw [hblock, hmk0] at hz
        have : (frag1.drop 1)[j - 1]? = some hdm := by
          rw [List.getElem?_drop, show 1 + (j - 1) = j from by omega]
          exact hz
        exact hfragS (mem_of_getElem?_eq_some this)
      · have hb2 : (frag1 ++ b).drop j = b.drop (j - frag1.length) := by
          rw [List.drop_append_eq_append_drop, List.drop_eq_nil_of_le (by omega),
            List.nil_append]
        rw [hb2] at hx
        have := strIn_of_strPre_drop b _ hx
        rw [hmb] at this
        cases this

/-! ### Contextual behaviour of the passes around the Value fragment -/

/-- The rewritten text the amended C6 promises. -/
def targC6 : Str := "log.error(\"Value: \x7b\x7d\", x);".data

/-- Captures produced by the second error rule on the Value fragment. -/
def capsC6 : Caps := [(2, "x".data), (1, "Value".data)]

/-- The second error rule's template instantiated at those captures gives
exactly the target text. -/
theorem err2Repl_capsC6 : err2Repl capsC6 = targC6 := by decide

/-- The first error rule does not match at the head of the Value fragment,
whatever follows it. -/
theorem err1_frag_none (b : Str) : tryMatchAt err1RE (cW6a ++ b) = none := by
  have h : mmatch err1RE (cW6a ++ b) [] (fun rest caps => some (caps, rest)) = none := rfl
  simp [tryMatchAt, h]

/-- The second error rule matches the full 34-character Value fragment at its
head, capturing the label and the argument, whatever follows it. -/
theorem err2_frag_match (b : Str) : tryMatchAt err2RE (cW6a ++ b) = some (capsC6, 34) := by
  have h : mmatch err2RE (cW6a ++ b) [] (fun rest caps => some (caps, rest)) =
      some (capsC6, b) := rfl
  simp [tryMatchAt, h, List.length_append, show cW6a.length = 34 from rfl]

/-- Positions other than the fragment start never start an err-marker
occurrence in a marker-free context. -/
theorem c6_err_marker_pos (a b : Str)
    (hae : strIn "System.err".data a = false)
    (hbe : strIn "System.err".data b = false) :
    ∀ i, i ≠ a.length → strPre "System.err".data ((a ++ (cW6a ++ b)).drop i) = false :=
  fun i hia => marker_position_analysis "System.err".data a cW6a b 'S' 'S' hae hbe
    (by decide) (by decide) (by decide) (by decide) i hia

/-- The three standard-stream rules leave the Value file unchanged when the
out marker occurs in neither surrounding block. -/
theorem c6_out_pass_id (a b : Str)
    (hao : strIn "System.out".data a = false)
    (hbo : strIn "System.out".data b = false) :
    replace_system_out (a ++ (cW6a ++ b)) = a ++ (cW6a ++ b) := by
  have hpos : ∀ i, strPre "System.out".data ((a ++ (cW6a ++ b)).drop i) = false := by
    intro i
    by_cases hia : i = a.length
    · subst hia
      rw [List.drop_left]
      cases hx : strPre "System.out".data (cW6a ++ b) with
      | false => rfl
      | true =>
        have h2 : strPre "System.out".data cW6a = true :=
          strPre_left_of_length_le hx (by decide)
        exact absurd h2 (by decide)
    · exact marker_position_analysis "System.out".data a cW6a b 'S' 'S' hao hbo
        (by decide) (by decide) (by decide) (by decide) i hia
  have h1 : ∀ i, tryMatchAt out1RE ((a ++ (cW6a ++ b)).drop i) = none := by
    intro i
    exact tryMatchAt_none_of_marker _ (strPre_iff.mp (by decide)) (hpos i)
  have h2 : ∀ i, tryMatchAt out2RE ((a ++ (cW6a ++ b)).drop i) = none := by
    intro i
    exact tryMatchAt_none_of_marker _ (strPre_iff.mp (by decide)) (hpos i)
  have h3 : ∀ i, tryMatchAt out3RE ((a ++ (cW6a ++ b)).drop i) = none := by
    intro i
    exact tryMatchAt_none_of_marker _ (strPre_iff.mp (by decide)) (hpos i)
  rw [replace_system_out, reSub_id_of_none h1, reSub_id_of_none h2, reSub_id_of_none h3]

/-- The first error rule (quoted-literal form) leaves the Value file
unchanged: at the fragment it fails on the colon form, elsewhere the marker
is absent. -/
theorem c6_err1_pass_id (a b : Str)
    (hae : strIn "System.err".data a = false)
    (hbe : strIn "System.err".data b = false) :
    reSub err1RE err1Repl (a ++ (cW6a ++ b)) = a ++ (cW6a ++ b) := by
  apply reSub_id_of_none
  intro i
  by_cases hia : i = a.length
  · subst hia
    rw [List.drop_left]
    exact err1_frag_none b
  · exact tryMatchAt_none_of_marker _ (strPre_iff.mp (by decide))
      (c6_err_marker_pos a b hae hbe i hia)

/-- The second error rule rewrites exactly the fragment, passing the
surrounding blocks through. -/
theorem c6_err2_step (a b : Str)
    (hae : strIn "System.err".data a = false)
    (hbe : strIn "System.err".data b = false) :
    reSub err2RE err2Repl (a ++ (cW6a ++ b)) = a ++ (targC6 ++ b) := by
  have hleft : ∀ i, i < a.length → tryMatchAt err2RE ((a ++ (cW6a ++ b)).drop i) = none := by
    intro i hi
    exact tryMatchAt_none_of_marker _ (strPre_iff.mp (by decide))
      (c6_err_marker_pos a b hae hbe i (by omega))
  rw [reSub_append_left hleft]
  congr 1
  have hm : tryMatchAt err2RE (cW6a ++ b) = some (capsC6, cW6a.length) := by
    rw [show cW6a.length = 34 from rfl]
    exact err2_frag_match b
  rw [reSub_match_step (by decide) hm, err2Repl_capsC6]
  congr 1
  apply reSub_id_of_none
  intro i
  have hpre : strPre "System.err".data (b.drop i) = false := by
    cases hx : strPre "System.err".data (b.drop i) with
    | false => rfl
    | true =>
      have h2 := strIn_of_strPre_drop b i hx
      rw [hbe] at h2
      cases h2
  exact tryMatchAt_none_of_marker _ (strPre_iff.mp (by decide)) hpre

/-- The third error rule leaves the already rewritten file unchanged: the
marker occurs nowhere in it. -/
theorem c6_err3_pass_id (a b : Str)
    (hae : strIn "System.err".data a = false)
    (hbe : strIn "System.err".data b = false) :
    reSub err3RE err3Repl (a ++ (targC6 ++ b)) = a ++ (targC6 ++ b) := by
  apply reSub_id_of_none
  intro i
  by_cases hia : i = a.length
  · subst hia
    rw [List.drop_left]
    have hpre : strPre "System.err".data (targC6 ++ b) = false := by
      cases hx : strPre "System.err".data (targC6 ++ b) with
      | false => rfl
      | true =>
        have h2 : strPre "System.err".data targC6 = true :=
          strPre_left_of_length_le hx (by decide)
        exact absurd h2 (by decide)
    exact tryMatchAt_none_of_marker _ (strPre_iff.mp (by decide)) hpre
  · exact tryMatchAt_none_of_marker _ (strPre_iff.mp (by decide))
      (marker_position_analysis "System.err".data a targC6 b 'l' 'S' hae hbe
        (by decide) (by decide) (by decide) (by decide) i hia)

/-- C6 amended: in any context `a ++ System.err.println("Value: " + x); ++ b`
whose surrounding blocks `a`, `b` contain neither stream marker (so no
overlapping match of another rewrite rule can swallow the occurrence), the
six call rewrites produce exactly `a ++ log.error("Value: {}", x); ++ b`,
and in particular the output contains the target text; moreover the
single-statement file and a concrete class-embedded file are transformed as
promised through the full per-file pipeline. The counterexample shows the
no-swallowing proviso is necessary. -/
theorem c6_amended_fragment_rewritten :
    (∀ a b : Str,
      strIn "System.out".data a = false → strIn "System.out".data b = false →
      strIn "System.err".data a = false → strIn "System.err".data b = false →
      replace_system_err (replace_system_out (a ++ (cW6a ++ b))) = a ++ (targC6 ++ b) ∧
      strIn targC6 (replace_system_err (replace_system_out (a ++ (cW6a ++ b)))) = true) ∧
    transform cW6a = targC6 ∧
    strIn targC6 (transform cW6b) = true ∧
    transform cW6b =
      ("import a.b;\nimport org.slf4j.Logger;\nimport org.slf4j.LoggerFactory;\n" ++
       "public class Foo \x7b\n\n    private static final Logger log = " ++
       "LoggerFactory.getLogger(Foo.class);\nvoid m() \x7b\nlog.error(\"Value: \x7b\x7d\", x);\n\x7d\n\x7d").data := by
  refine ⟨?_, by decide, by decide, by decide⟩
  intro a b hao hbo hae hbe
  have hkey : replace_system_err (replace_system_out (a ++ (cW6a ++ b)))
      = a ++ (targC6 ++ b) := by
    rw [c6_out_pass_id a b hao hbo, replace_system_err, c6_err1_pass_id a b hae hbe,
      c6_err2_step a b hae hbe, c6_err3_pass_id a b hae hbe]
  refine ⟨hkey, ?_⟩
  rw [hkey, strIn_iff]
  exact ⟨a, b, List.append_assoc a targC6 b⟩

/-- Concrete instance of the amended C6's contextual statement: surrounding
blocks of a class body, free of both stream markers, rewritten in place. -/
theorem c6_amended_witness :
    strIn "System.out".data "public class F \x7b\nvoid m() \x7b\n".data = false ∧
    strIn "System.out".data "\n\x7d\n\x7d".data = false ∧
    strIn "System.err".data "public class F \x7b\nvoid m() \x7b\n".data = false ∧
    strIn "System.err".data "\n\x7d\n\x7d".data = false ∧
    replace_system_err (replace_system_out
        ("public class F \x7b\nvoid m() \x7b\n".data ++ (cW6a ++ "\n\x7d\n\x7d".data))) =
      "public class F \x7b\nvoid m() \x7b\n".data ++ (targC6 ++ "\n\x7d\n\x7d".data) := by
  refine ⟨by decide, by decide, by decide, by decide, ?_⟩
  exact (c6_amended_fragment_rewritten.1 "public class F \x7b\nvoid m() \x7b\n".data
    "\n\x7d\n\x7d".data (by decide) (by decide) (by decide) (by decide)).1
